import Mathlib

/-!
A shallow embedding of `analyze-scrublogs.py` (Ceph scrub-log analyzer).

Modelling conventions:

* Timestamps are rational numbers of microseconds (`Time := ℚ`).  Python
  `datetime`/`timedelta` arithmetic at microsecond precision is exact; the
  one place a `float` feeds a `timedelta` (`est_scrub_duration`) is modelled
  with exact rational arithmetic instead of IEEE rounding.
* Python `dict`s are modelled as insertion-ordered association lists with
  unique keys (`dictGet` / `dictSet` mirror `d[k]` / `d[k] = v`).
* Each regular-expression grammar of the source is modelled at the level of
  a successful match: an inductive `Line` (resp. `Rest`, `Explan`) constructor
  per grammar, carrying the captured groups after lexical conversion.  The
  top-level grammars of the source are mutually exclusive on raw text, so the
  priority-ordered matcher chain of `CephScrubLogAnalyzer.parse` is faithfully
  represented by a `match` on the constructor.
* Exceptions (`ParseError`, `KeyError`, `AssertionError`, `IndexError`) are
  modelled with `Except`; since the Python analyzer object retains its state
  when an exception propagates, errors carry the analyzer state at raise time.
* `print` output is modelled by an `output : List String` field; numeric
  field widths (`%5.2f` and friends) are abstracted in the produced strings.
-/

namespace AnalyzeScrublogs

/-- Timestamps: microseconds, exact. -/
abbrev Time := ℚ

/-- Python `d[k]` on an association list (first binding wins, as keys are unique). -/
def dictGet {α β : Type} [DecidableEq α] (k : α) : List (α × β) → Option β
  | [] => none
  | p :: ps => if p.1 = k then some p.2 else dictGet k ps

/-- Python `d[k] = v`: overwrite the binding if the key is present, else append. -/
def dictSet {α β : Type} [DecidableEq α] (l : List (α × β)) (k : α) (v : β) : List (α × β) :=
  match dictGet k l with
  | some _ => l.map (fun p => if p.1 = k then (k, v) else p)
  | none => l ++ [(k, v)]

/-- `SCRUB_SHALLOW = 0` in the source. -/
def SCRUB_SHALLOW : ℕ := 0

/-- `SCRUB_DEEP = 1` in the source. -/
def SCRUB_DEEP : ℕ := 1

/-- Estimated scrubbing rate in bytes/sec (`SCRUB_RATE_EST = 80e6`). -/
def SCRUB_RATE_EST : ℚ := 80000000

/-- The exceptions the analyzer can raise: `ParseError` (explicit raise),
`KeyError` (dict miss), `AssertionError` (failed assert), `IndexError`
(subscript of an empty list). -/
inductive Err : Type
  | parseError (msg : String)
  | keyError
  | assertionError
  | indexError
deriving DecidableEq

/-- `class PG`: a Ceph placement group.  `hosts` entries are `Option String`
because `osd_to_host` values are the `current_host` cursor, itself optional. -/
structure PG : Type where
  pgid : String
  objects : ℕ
  bytes : ℕ
  up : List ℕ
  acting : List ℕ
  hosts : List (Option String)
deriving DecidableEq

/-- The event hierarchy: `ScrubEvent(time, scrub_type, pg, start=0)` and
`OSDSlowRequestEvent(time, osdno, description)`. -/
inductive Event : Type
  | ScrubEvent (time : Time) (scrub_type : ℕ) (start : Bool) (pg : PG)
  | OSDSlowRequestEvent (time : Time) (osdno : ℕ) (description : String)
deriving DecidableEq

/-- The `time` attribute common to all events. -/
def Event.time : Event → Time
  | .ScrubEvent t _ _ _ => t
  | .OSDSlowRequestEvent t _ _ => t

/-- `class EventLog`: a dict from time to the list of events added at that time. -/
structure EventLog : Type where
  log : List (Time × List Event)
deriving DecidableEq

/-- `EventLog.add`: append to the bucket for `event.time` (`event.time in
self.log` is the membership test), creating the bucket if absent. -/
def EventLog.add (l : EventLog) (e : Event) : EventLog :=
  match dictGet e.time l.log with
  | some _ => ⟨l.log.map (fun p => if p.1 = e.time then (p.1, p.2 ++ [e]) else p)⟩
  | none => ⟨l.log ++ [(e.time, [e])]⟩

/-- The key set of the log dict. -/
def EventLog.keys (l : EventLog) : List Time := l.log.map Prod.fst

/-- The bucket stored at time `t` (empty when `t` is not a key). -/
def EventLog.bucket (l : EventLog) (t : Time) : List Event :=
  (dictGet t l.log).getD []

/-- `EventLog.forward`: all events, buckets visited in ascending key order
(`sorted(self.log.keys())`), events within a bucket in insertion order.
`insertionSort` computes the same list as Python sorted keys: the keys of a
dict are distinct, and a sorted duplicate-free list is unique. -/
def EventLog.forward (l : EventLog) : List Event :=
  (List.insertionSort (· ≤ ·) l.keys).flatMap l.bucket

/-- Total number of stored events. -/
def EventLog.size (l : EventLog) : ℕ := (l.log.map (fun p => p.2.length)).sum

/-- The invariant `EventLog.add` maintains from the empty log: keys are
distinct (true of any Python dict) and every event sits in the bucket of its
own time. -/
def EventLog.wf (l : EventLog) : Prop :=
  l.keys.Nodup ∧ ∀ p ∈ l.log, ∀ e ∈ p.2, e.time = p.1

instance (l : EventLog) : Decidable l.wf := by
  unfold EventLog.wf
  infer_instance

instance {ε α : Type} [DecidableEq ε] [DecidableEq α] : DecidableEq (Except ε α) :=
  fun x y =>
    match x, y with
    | .ok a, .ok b =>
      if h : a = b then .isTrue (by rw [h]) else .isFalse (by simp [h])
    | .ok _, .error _ => .isFalse (by simp)
    | .error _, .ok _ => .isFalse (by simp)
    | .error e, .error f =>
      if h : e = f then .isTrue (by rw [h]) else .isFalse (by simp [h])

/-- `parse_scrub_type`: `'scrub'` is shallow, `'deep-scrub'` is deep,
anything else raises `ParseError`. -/
def parse_scrub_type (scrub_type : String) : Except Err ℕ :=
  if scrub_type = "scrub" then .ok SCRUB_SHALLOW
  else if scrub_type = "deep-scrub" then .ok SCRUB_DEEP
  else .error (.parseError ("Unknown scrub type " ++ scrub_type))

/-- Which of the three known slow-request sub-shapes an explanation text
matched: `OSD_SLOW_OSD_OP_RE`, `OSD_SLOW_OSD_SUB_OP_RE`,
`OSD_SLOW_OSD_SUB_OP_REPLY_RE`, or none of them.  The three patterns have
mutually exclusive literal heads (`osd_op(`, `osd_sub_op(`,
`osd_sub_op_reply(`). -/
inductive ExplanShape : Type
  | osdOp
  | subOp
  | subOpReply
  | unrecognized
deriving DecidableEq

/-- A slow-request explanation: its raw text and which sub-shape it matched. -/
structure Explan : Type where
  text : String
  shape : ExplanShape
deriving DecidableEq

/-- The remainder of an OSD log line (capture group 8 of `OSD_LOG_RE`),
one constructor per sub-grammar tried by the classifier chain:
`OSD_LOG_SCRUB_RE` (pg id and the literal scrub-type token),
`OSD_LOG_SLOW_RE` (age, the embedded received-at timestamp, explanation),
`OSD_LOG_SLOWS_RE` (aggregate counts, validated and discarded),
`OSD_PARAM_SET_RE` (echoed parameter value, validated and discarded),
or text matching none of the four. -/
inductive Rest : Type
  | scrubRest (pgid : String) (scrub_type_tok : String)
  | slowRest (age : ℚ) (received : Time) (explan : Explan)
  | slowsRest (slow_total : ℕ) (included : ℕ) (oldest_secs : ℚ)
  | paramRest (value : String)
  | unknownRest (text : String)
deriving DecidableEq

/-- A raw input line after grammar matching, one constructor per top-level
grammar: `OSD_LOG_RE`, `PG_RE`, `OSD_TREE_HOST_RE`, `OSD_TREE_OSD_RE`,
`OSD_STATS_RE`, or unrecognized text.  Constructors carry the capture groups
the source retains (weights, epochs and similar validated-only fields are
dropped). -/
inductive Line : Type
  | osdLog (osdno : ℕ) (tstamp : Time) (severity : String) (rest : Rest) (raw : String)
  | pgLine (pgid : String) (objects : ℕ) (bytes : ℕ) (status : String)
      (up_set : List ℕ) (up_primary : ℕ) (acting_set : List ℕ) (acting_primary : ℕ)
  | treeHost (host : String)
  | treeOsd (osdno : ℕ)
  | stats (osdno : ℕ) (kb_used : ℕ)
  | unknown (raw : String)
deriving DecidableEq

/-- `class CephScrubLogAnalyzer`: configuration, counters, the event log, the
topology and PG registries, the current-host cursor, and the `print` output
stream. -/
structure CephScrubLogAnalyzer : Type where
  min_time : Option Time
  scrub_rate_est : ℚ
  log_unknown_lines : Bool
  scrub_count : ℕ
  shallow_count : ℕ
  deep_count : ℕ
  log : EventLog
  osd_to_host : List (ℕ × Option String)
  osd_to_kb_used : List (ℕ × ℕ)
  pg : List (String × PG)
  current_host : Option String
  output : List String
deriving DecidableEq

abbrev Analyzer := CephScrubLogAnalyzer

/-- `CephScrubLogAnalyzer.__init__`. -/
def CephScrubLogAnalyzer.init (min_time : Option Time := none)
    (scrub_rate_est : ℚ := SCRUB_RATE_EST) (log_unknown_lines : Bool := false) :
    Analyzer :=
  { min_time := min_time
    scrub_rate_est := scrub_rate_est
    log_unknown_lines := log_unknown_lines
    scrub_count := 0
    shallow_count := 0
    deep_count := 0
    log := ⟨[]⟩
    osd_to_host := []
    osd_to_kb_used := []
    pg := []
    current_host := none
    output := [] }

/-- The minimum-timestamp filter `not self.min_time or self.min_time < tstamp`. -/
def min_time_passes (min_time : Option Time) (tstamp : Time) : Bool :=
  match min_time with
  | none => true
  | some m => decide (m < tstamp)

/-- `osd_host`: `self.osd_to_host[osd]`, raising `KeyError` on a miss. -/
def osd_host (a : Analyzer) (osd : ℕ) : Except Err (Option String) :=
  match dictGet osd a.osd_to_host with
  | none => .error .keyError
  | some h => .ok h

/-- `parse_osd_log_scrub_line` after `OSD_LOG_SCRUB_RE` matched, with captured
`pgid` and scrub-type token.  Shallow: bump `shallow_count`.  Deep: bump
`deep_count`, look up the PG (`KeyError` aborts with the counter already
bumped and no event recorded), and add an end `ScrubEvent` (default
`start=0`) at the log line's own timestamp.  Either way `scrub_count` is
bumped last. -/
def parse_osd_log_scrub_line (a : Analyzer) (pgid : String) (scrub_type_tok : String)
    (tstamp : Time) : Except (Err × Analyzer) Analyzer :=
  match parse_scrub_type scrub_type_tok with
  | .error e => .error (e, a)
  | .ok scrub_type =>
    if scrub_type = SCRUB_SHALLOW then
      let a := { a with shallow_count := a.shallow_count + 1 }
      .ok { a with scrub_count := a.scrub_count + 1 }
    else if scrub_type = SCRUB_DEEP then
      let a := { a with deep_count := a.deep_count + 1 }
      match dictGet pgid a.pg with
      | none => .error (.keyError, a)
      | some pg =>
        let a := { a with log := a.log.add (.ScrubEvent tstamp scrub_type false pg) }
        .ok { a with scrub_count := a.scrub_count + 1 }
    else
      .ok { a with scrub_count := a.scrub_count + 1 }

/-- The diagnostic line printed for a slow request whose explanation matches
none of the three known shapes (field widths abstracted). -/
def slow_request_diag (received : Time) (osdno : ℕ) (host : Option String)
    (age : ℚ) (explan_text : String) : String :=
  toString received ++ " Slow request OSD " ++ toString osdno ++ " [" ++
    (match host with | none => "None" | some h => h) ++ "], age " ++
    toString age ++ "s: " ++ explan_text

/-- `parse_osd_log_slow_line` after `OSD_LOG_SLOW_RE` matched.  A known
sub-shape adds an `OSDSlowRequestEvent` carrying the enclosing log line's
timestamp `tstamp` (the parsed `received` timestamp is used only in the
diagnostic branch); an unrecognized shape prints a diagnostic immediately
(resolving the OSD's host, a possible `KeyError`) and stores nothing. -/
def parse_osd_log_slow_line (a : Analyzer) (osdno : ℕ) (tstamp : Time)
    (age : ℚ) (received : Time) (explan : Explan) : Except (Err × Analyzer) Analyzer :=
  match explan.shape with
  | .osdOp => .ok { a with log := a.log.add (.OSDSlowRequestEvent tstamp osdno explan.text) }
  | .subOp => .ok { a with log := a.log.add (.OSDSlowRequestEvent tstamp osdno explan.text) }
  | .subOpReply => .ok { a with log := a.log.add (.OSDSlowRequestEvent tstamp osdno explan.text) }
  | .unrecognized =>
    match osd_host a osdno with
    | .error e => .error (e, a)
    | .ok h => .ok { a with output := a.output ++ [slow_request_diag received osdno h age explan.text] }

/-- `parse_osd_log_line` after `OSD_LOG_RE` matched: if the line passes the
minimum-timestamp filter, run the priority chain on the remainder
(scrub / slow / slows-summary / param-echo, else `ParseError` on the whole
raw line); otherwise consume the line with no further action. -/
def parse_osd_log_line (a : Analyzer) (osdno : ℕ) (tstamp : Time) (rest : Rest)
    (raw : String) : Except (Err × Analyzer) Analyzer :=
  if min_time_passes a.min_time tstamp then
    match rest with
    | .scrubRest pgid tok => parse_osd_log_scrub_line a pgid tok tstamp
    | .slowRest age received explan => parse_osd_log_slow_line a osdno tstamp age received explan
    | .slowsRest _ _ _ => .ok a
    | .paramRest _ => .ok a
    | .unknownRest _ => .error (.parseError ("Unrecognized OSD log line: " ++ raw), a)
  else .ok a

/-- Resolve every member of an acting set through `osd_host`
(`[osd_host(x) for x in acting_set]`), failing on the first missing node. -/
def resolve_hosts (a : Analyzer) : List ℕ → Except Err (List (Option String))
  | [] => .ok []
  | x :: xs =>
    match osd_host a x with
    | .error e => .error e
    | .ok h =>
      match resolve_hosts a xs with
      | .error e => .error e
      | .ok hs => .ok (h :: hs)

/-- `parse_pg` after `PG_RE` matched: assert `up[0] == up_primary` and
`acting[0] == acting_primary` (empty sets would be an `IndexError`; an
`assert` failure is an `AssertionError`), resolve the acting set to hosts
(`KeyError` on an unregistered node), then register the `PG` record. -/
def parse_pg (a : Analyzer) (pgid : String) (objects : ℕ) (bytes : ℕ)
    (up_set : List ℕ) (up_primary : ℕ) (acting_set : List ℕ) (acting_primary : ℕ) :
    Except (Err × Analyzer) Analyzer :=
  match up_set.head? with
  | none => .error (.indexError, a)
  | some u0 =>
    if u0 = up_primary then
      match acting_set.head? with
      | none => .error (.indexError, a)
      | some a0 =>
        if a0 = acting_primary then
          match resolve_hosts a acting_set with
          | .error e => .error (e, a)
          | .ok hosts =>
            let rec_ : PG :=
              { pgid := pgid, objects := objects, bytes := bytes,
                up := up_set, acting := acting_set, hosts := hosts }
            .ok { a with pg := dictSet a.pg pgid rec_ }
        else .error (.assertionError, a)
    else .error (.assertionError, a)

/-- `parse_osd_tree_host`: set the current-host cursor. -/
def parse_osd_tree_host (a : Analyzer) (host : String) : Analyzer :=
  { a with current_host := some host }

/-- `parse_osd_tree_osd`: bind the node id to the current-host cursor,
whatever it holds (including the initial `None`). -/
def parse_osd_tree_osd (a : Analyzer) (osdno : ℕ) : Analyzer :=
  { a with osd_to_host := dictSet a.osd_to_host osdno a.current_host }

/-- `parse_osd_stats`: retain only the used-capacity figure. -/
def parse_osd_stats (a : Analyzer) (osdno : ℕ) (kb_used : ℕ) : Analyzer :=
  { a with osd_to_kb_used := dictSet a.osd_to_kb_used osdno kb_used }

/-- One iteration of the `for line in open(...)` loop: dispatch on the grammar
the line matched; a line matching no grammar is echoed with a `?? ` prefix
when `log_unknown_lines` is set and dropped otherwise, never an error. -/
def parse_line (a : Analyzer) (l : Line) : Except (Err × Analyzer) Analyzer :=
  match l with
  | .osdLog osdno tstamp _ rest raw => parse_osd_log_line a osdno tstamp rest raw
  | .pgLine pgid objects bytes _ up_set up_primary acting_set acting_primary =>
      parse_pg a pgid objects bytes up_set up_primary acting_set acting_primary
  | .treeHost host => .ok (parse_osd_tree_host a host)
  | .treeOsd osdno => .ok (parse_osd_tree_osd a osdno)
  | .stats osdno kb_used => .ok (parse_osd_stats a osdno kb_used)
  | .unknown raw =>
      .ok (if a.log_unknown_lines then { a with output := a.output ++ ["?? " ++ raw] } else a)

/-- The full classification pass: the line loop of `parse`, stopping at the
first uncaught exception (which aborts the Python run). -/
def parse_lines (a : Analyzer) : List Line → Except (Err × Analyzer) Analyzer
  | [] => .ok a
  | l :: ls =>
    match parse_line a l with
    | .error e => .error e
    | .ok a₁ => parse_lines a₁ ls

/-- `est_scrub_duration` (inside `add_scrub_start_event`): estimated scrub
duration in microseconds, `size / (scrub_rate_est / 1e6) + 1`, modelled with
exact rational arithmetic. -/
def est_scrub_duration (scrub_rate_est : ℚ) (size : ℕ) : ℚ :=
  let scrub_init_duration : ℚ := 1
  (size : ℚ) / (scrub_rate_est / 1000000) + scrub_init_duration

/-- `add_scrub_start_event`: for a deep `ScrubEvent`, add a synthesized start
event at `end.time - est_scrub_duration(pg.bytes)` with the same scrub type
and PG and `start=True`; other scrub types add nothing.  The second arm is
unreachable from its only caller, whose `isinstance` guard admits only
`ScrubEvent`s (Python would fault on the attribute access). -/
def add_scrub_start_event (a : Analyzer) (end_event : Event) : Analyzer :=
  match end_event with
  | .ScrubEvent t scrub_type _ pg =>
    if scrub_type = SCRUB_DEEP then
      let ev : Event :=
        .ScrubEvent (t - est_scrub_duration a.scrub_rate_est pg.bytes) scrub_type true pg
      { a with log := a.log.add ev }
    else a
  | .OSDSlowRequestEvent _ _ _ => a

/-- The body of the `for event in self.log.forward()` loop of
`add_scrub_start_events`: the `isinstance(event, ScrubEvent)` guard, then
`add_scrub_start_event`. -/
def add_scrub_start_step (a : Analyzer) (e : Event) : Analyzer :=
  match e with
  | .ScrubEvent _ _ _ _ => add_scrub_start_event a e
  | .OSDSlowRequestEvent _ _ _ => a

/-- Live iteration over the bucket at key `t` while the log mutates: Python's
`for ev in ev` walks the bucket list by index and re-reads it each step, so
events appended to this very bucket during the walk would be visited too.
The walk is bounded by fuel; the fuel supplied below suffices whenever every
synthesized event lands at a strictly earlier timestamp (positive durations,
the case settled by the theorems) — with non-positive durations the Python
loop itself would not terminate. -/
def add_scrub_start_bucket (t : Time) : ℕ → Analyzer → ℕ → Analyzer
  | 0, a, _ => a
  | fuel + 1, a, i =>
    let b := a.log.bucket t
    if h : i < b.length then
      add_scrub_start_bucket t fuel (add_scrub_start_step a (b.get ⟨i, h⟩)) (i + 1)
    else a

/-- `add_scrub_start_events`: iterate the `forward()` generator over the log
while adding events to it.  The generator computes `sorted(self.log.keys())`
once, when first resumed — a snapshot of the keys present before any
addition — then reads each bucket live when its key is reached. -/
def add_scrub_start_events (a : Analyzer) : Analyzer :=
  (List.insertionSort (· ≤ ·) a.log.keys).foldl
    (fun acc t => add_scrub_start_bucket t (acc.log.size + 1) acc 0) a

/-- The synthesized start event `add_scrub_start_event` would derive from a
given event, if any: deep `ScrubEvent`s (the marker is not inspected) map to
their start event, everything else to nothing. -/
def synth_start? (scrub_rate_est : ℚ) (e : Event) : Option Event :=
  match e with
  | .ScrubEvent t scrub_type _ pg =>
    if scrub_type = SCRUB_DEEP then
      some (.ScrubEvent (t - est_scrub_duration scrub_rate_est pg.bytes) scrub_type true pg)
    else none
  | .OSDSlowRequestEvent _ _ _ => none

/-- All start events synthesized from a snapshot list of events, in order. -/
def synth_starts (scrub_rate_est : ℚ) (es : List Event) : List Event :=
  es.filterMap (synth_start? scrub_rate_est)

/-- Whether a line is a scrub-completion line the classifier recognizes and
counts: an OSD log line passing the minimum-timestamp filter whose remainder
matched `OSD_LOG_SCRUB_RE`. -/
def is_scrub_line (min_time : Option Time) : Line → Bool
  | .osdLog _ tstamp _ (.scrubRest _ _) _ => min_time_passes min_time tstamp
  | _ => false

/-- As `is_scrub_line`, restricted to the shallow token `scrub`. -/
def is_shallow_line (min_time : Option Time) : Line → Bool
  | .osdLog _ tstamp _ (.scrubRest _ tok) _ => min_time_passes min_time tstamp && tok = "scrub"
  | _ => false

/-- As `is_scrub_line`, restricted to the deep token `deep-scrub`. -/
def is_deep_line (min_time : Option Time) : Line → Bool
  | .osdLog _ tstamp _ (.scrubRest _ tok) _ => min_time_passes min_time tstamp && tok = "deep-scrub"
  | _ => false

/-- Whether an event is a deep `ScrubEvent` (the test `add_scrub_start_event`
applies, marker not inspected). -/
def is_deep_scrub_event : Event → Bool
  | .ScrubEvent _ scrub_type _ _ => decide (scrub_type = SCRUB_DEEP)
  | .OSDSlowRequestEvent _ _ _ => false

/-- Whether an event is a `ScrubEvent` with the start marker set. -/
def is_scrub_start_event : Event → Bool
  | .ScrubEvent _ _ s _ => s
  | .OSDSlowRequestEvent _ _ _ => false

/-- The start event `add_scrub_start_event` builds for a deep end event
(identity elsewhere; only applied under the `is_deep_scrub_event` guard). -/
def start_event_of (scrub_rate_est : ℚ) : Event → Event
  | .ScrubEvent t scrub_type _ pg =>
    .ScrubEvent (t - est_scrub_duration scrub_rate_est pg.bytes) scrub_type true pg
  | e => e

/-- Analyzer states that agree on every field except possibly the event log. -/
def SameExceptLog (a b : Analyzer) : Prop :=
  b.min_time = a.min_time ∧ b.scrub_rate_est = a.scrub_rate_est ∧
  b.log_unknown_lines = a.log_unknown_lines ∧ b.scrub_count = a.scrub_count ∧
  b.shallow_count = a.shallow_count ∧ b.deep_count = a.deep_count ∧
  b.osd_to_host = a.osd_to_host ∧ b.osd_to_kb_used = a.osd_to_kb_used ∧
  b.pg = a.pg ∧ b.current_host = a.current_host ∧ b.output = a.output

/-- The synthesis loop body folded over a list of events (the effect of the
pass on a snapshot). -/
def synth_all (a : Analyzer) (es : List Event) : Analyzer :=
  es.foldl add_scrub_start_step a

/-- `b` differs from `a` only by the event log, which has merely had some
start-marked deep `ScrubEvent`s added to it. -/
def AddsOnlyStarts (a b : Analyzer) : Prop :=
  SameExceptLog a b ∧
  ∃ added : List Event,
    (∀ e ∈ added, ∃ t pg, e = Event.ScrubEvent t SCRUB_DEEP true pg) ∧
    b.log = added.foldl EventLog.add a.log

/-- Replace only the configured minimum-timestamp bound. -/
def with_min (a : Analyzer) (m : Option Time) : Analyzer :=
  { a with min_time := m }

/-- Apply `with_min` to the analyzer state inside either outcome. -/
def except_with_min (m : Option Time) :
    Except (Err × Analyzer) Analyzer → Except (Err × Analyzer) Analyzer
  | .ok b => .ok (with_min b m)
  | .error (e, b) => .error (e, with_min b m)

/-! ## Concrete witness inputs -/

/-- Witness input for C2: one deep end event and one slow-request event. -/
def c2_pg : PG := ⟨"1.2", 10, 160000000, [1], [1], [some "h"]⟩

/-- Witness analyzer state for C2. -/
def c2_a : Analyzer :=
  { CephScrubLogAnalyzer.init none SCRUB_RATE_EST false with
    log := ⟨[(100000000, [Event.ScrubEvent 100000000 SCRUB_DEEP false c2_pg]),
             (50, [Event.OSDSlowRequestEvent 50 1 "s"])]⟩ }

/-- Witness log for C6: two buckets in non-sorted key order. -/
def c6_log : EventLog :=
  ⟨[(5, [Event.OSDSlowRequestEvent 5 1 "a"]), (3, [Event.OSDSlowRequestEvent 3 2 "b"])]⟩

/-- Witness event for C6: shares the timestamp of an existing bucket. -/
def c6_event : Event := Event.OSDSlowRequestEvent 5 7 "c"

/-- Witness lines for C9: one shallow completion and one unknown line. -/
def c9_lines : List Line :=
  [Line.osdLog 1 10 "INF" (Rest.scrubRest "1.2" "scrub") "r", Line.unknown "x"]

/-- Witness final state for C9. -/
def c9_res : Analyzer :=
  { CephScrubLogAnalyzer.init none SCRUB_RATE_EST false with
    shallow_count := 1, scrub_count := 1 }

/-- Witness topology state for C7: node 1 resolves to host `h`. -/
def c7_a : Analyzer :=
  { CephScrubLogAnalyzer.init none SCRUB_RATE_EST false with osd_to_host := [(1, some "h")] }

/-- Witness registered state for C7. -/
def c7_ok : Analyzer := { c7_a with pg := [("1.2", PG.mk "1.2" 5 999 [1] [1] [some "h"])] }

/-! ## Association-list (Python dict) lemmas -/

theorem dictGet_isSome_iff {α β : Type} [DecidableEq α] (k : α) (l : List (α × β)) :
    (dictGet k l).isSome ↔ k ∈ l.map Prod.fst := by
  induction l with
  | nil => simp [dictGet]
  | cons p ps ih =>
    by_cases h : p.1 = k
    · simp [dictGet, h]
    · simp [dictGet, h, ih, Ne.symm h]

theorem dictGet_eq_none_of_not_mem {α β : Type} [DecidableEq α] {k : α} {l : List (α × β)}
    (h : k ∉ l.map Prod.fst) : dictGet k l = none := by
  cases hd : dictGet k l with
  | none => rfl
  | some v =>
    exact absurd ((dictGet_isSome_iff k l).1 (by simp [hd])) h

theorem mem_of_dictGet {α β : Type} [DecidableEq α] {k : α} {v : β} {l : List (α × β)}
    (h : dictGet k l = some v) : (k, v) ∈ l := by
  induction l with
  | nil => simp [dictGet] at h
  | cons p ps ih =>
    by_cases hk : p.1 = k
    · simp only [dictGet, if_pos hk, Option.some.injEq] at h
      have hp : p = (k, v) := by cases p; simp_all
      rw [← hp]
      exact List.mem_cons_self _ _
    · simp only [dictGet, if_neg hk] at h
      exact List.mem_cons_of_mem _ (ih h)

theorem dictGet_append {α β : Type} [DecidableEq α] (k : α) (l₁ l₂ : List (α × β)) :
    dictGet k (l₁ ++ l₂) =
      match dictGet k l₁ with
      | some v => some v
      | none => dictGet k l₂ := by
  induction l₁ with
  | nil => simp [dictGet]
  | cons p ps ih =>
    by_cases h : p.1 = k <;> simp [dictGet, h, ih]

theorem dictGet_map_update {α β : Type} [DecidableEq α] (l : List (α × β)) (k : α)
    (f : β → β) :
    dictGet k (l.map (fun p => if p.1 = k then (p.1, f p.2) else p)) =
      (dictGet k l).map f := by
  induction l with
  | nil => simp [dictGet]
  | cons p ps ih =>
    by_cases h : p.1 = k
    · simp [dictGet, h]
    · simp [dictGet, h, ih]

theorem dictGet_map_update_ne {α β : Type} [DecidableEq α] (l : List (α × β)) {k k' : α}
    (h : k' ≠ k) (f : β → β) :
    dictGet k' (l.map (fun p => if p.1 = k then (p.1, f p.2) else p)) = dictGet k' l := by
  induction l with
  | nil => simp [dictGet]
  | cons p ps ih =>
    by_cases hp : p.1 = k
    · have hne : p.1 ≠ k' := by rw [hp]; exact Ne.symm h
      simp only [List.map_cons, if_pos hp, dictGet, hne, if_neg, if_false, ih]
    · by_cases hp' : p.1 = k'
      · simp only [List.map_cons, if_neg hp, dictGet, if_pos hp']
      · simp only [List.map_cons, if_neg hp, dictGet, if_neg hp', ih]

/-! ## EventLog lemmas -/

theorem EventLog.keys_add (l : EventLog) (e : Event) :
    (l.add e).keys = if e.time ∈ l.keys then l.keys else l.keys ++ [e.time] := by
  cases hd : dictGet e.time l.log with
  | some b =>
    have h : e.time ∈ l.keys := (dictGet_isSome_iff _ _).1 (by simp [hd])
    simp only [EventLog.add, hd, EventLog.keys, List.map_map]
    rw [if_pos (show e.time ∈ l.log.map Prod.fst from h)]
    apply List.map_congr_left
    intro p _
    by_cases hp : p.1 = e.time <;> simp [hp]
  | none =>
    have h : e.time ∉ l.keys := by
      intro hmem
      have := (dictGet_isSome_iff e.time l.log).2 hmem
      simp [hd] at this
    simp only [EventLog.add, hd, EventLog.keys, List.map_append, List.map_cons, List.map_nil]
    rw [if_neg (show e.time ∉ l.log.map Prod.fst from h)]

theorem EventLog.bucket_add_self (l : EventLog) (e : Event) :
    (l.add e).bucket e.time = l.bucket e.time ++ [e] := by
  cases hd : dictGet e.time l.log with
  | some b =>
    simp only [EventLog.add, hd, EventLog.bucket]
    rw [dictGet_map_update l.log e.time (fun x => x ++ [e])]
    simp [hd]
  | none =>
    simp only [EventLog.add, hd, EventLog.bucket]
    rw [dictGet_append]
    simp [hd, dictGet]

theorem EventLog.bucket_add_ne (l : EventLog) (e : Event) {t : Time} (h : t ≠ e.time) :
    (l.add e).bucket t = l.bucket t := by
  cases hd : dictGet e.time l.log with
  | some b =>
    simp only [EventLog.add, hd, EventLog.bucket]
    rw [dictGet_map_update_ne l.log h (fun x => x ++ [e])]
  | none =>
    simp only [EventLog.add, hd, EventLog.bucket]
    rw [dictGet_append]
    cases hd' : dictGet t l.log with
    | some b => simp
    | none => simp [dictGet, Ne.symm h]

theorem EventLog.bucket_eq_nil_of_not_mem {l : EventLog} {t : Time} (h : t ∉ l.keys) :
    l.bucket t = [] := by
  simp [EventLog.bucket, dictGet_eq_none_of_not_mem h]

theorem EventLog.wf_add {l : EventLog} (hwf : l.wf) (e : Event) : (l.add e).wf := by
  obtain ⟨hnd, hbt⟩ := hwf
  constructor
  · rw [EventLog.keys_add]
    by_cases h : e.time ∈ l.keys
    · simpa [h] using hnd
    · simp [h, List.nodup_append, hnd]
  · intro p hp ev hev
    cases hd : dictGet e.time l.log with
    | some b =>
      simp only [EventLog.add, hd] at hp
      obtain ⟨q, hq, hpq⟩ := List.mem_map.1 hp
      by_cases hqt : q.1 = e.time
      · rw [if_pos hqt] at hpq
        subst hpq
        simp only at hev ⊢
        rcases List.mem_append.1 hev with h1 | h1
        · exact hbt q hq ev h1
        · simp only [List.mem_singleton] at h1
          subst h1
          exact hqt.symm
      · rw [if_neg hqt] at hpq
        subst hpq
        exact hbt q hq ev hev
    | none =>
      simp only [EventLog.add, hd] at hp
      rcases List.mem_append.1 hp with h1 | h1
      · exact hbt p h1 ev hev
      · simp only [List.mem_singleton] at h1
        subst h1
        simp only [List.mem_singleton] at hev
        subst hev
        rfl

theorem EventLog.bucket_length_le_size (l : EventLog) (t : Time) :
    (l.bucket t).length ≤ l.size := by
  cases hd : dictGet t l.log with
  | none => simp [EventLog.bucket, hd]
  | some b =>
    have hmem : (t, b) ∈ l.log := mem_of_dictGet hd
    have : b.length ∈ l.log.map (fun p => p.2.length) := by
      exact List.mem_map.2 ⟨(t, b), hmem, rfl⟩
    calc (l.bucket t).length = b.length := by simp [EventLog.bucket, hd]
    _ ≤ l.size := List.single_le_sum (fun x _ => Nat.zero_le x) _ this

theorem EventLog.bucket_mem_log {l : EventLog} {t : Time} (h : t ∈ l.keys) :
    (t, l.bucket t) ∈ l.log := by
  have hs : (dictGet t l.log).isSome := (dictGet_isSome_iff _ _).2 h
  obtain ⟨b, hb⟩ := Option.isSome_iff_exists.1 hs
  have : l.bucket t = b := by simp [EventLog.bucket, hb]
  rw [this]
  exact mem_of_dictGet hb

theorem EventLog.bucket_times {l : EventLog} (hwf : l.wf) (t : Time) :
    ∀ e ∈ l.bucket t, e.time = t := by
  intro e he
  by_cases h : t ∈ l.keys
  · exact hwf.2 _ (EventLog.bucket_mem_log h) e he
  · rw [EventLog.bucket_eq_nil_of_not_mem h] at he
    simp at he

theorem flatMap_congr_mem {α β : Type} {S : List α} {f g : α → List β}
    (h : ∀ x ∈ S, f x = g x) : S.flatMap f = S.flatMap g := by
  induction S with
  | nil => rfl
  | cons k S' ih =>
    simp only [List.flatMap_cons]
    rw [h k (List.mem_cons_self _ _), ih (fun x hx => h x (List.mem_cons_of_mem _ hx))]

theorem flatMap_bucket_filter (l : EventLog) (hwf : l.wf) (t : Time) (S : List Time)
    (hS : S.Nodup) :
    (S.flatMap l.bucket).filter (fun x => decide (x.time = t)) =
      if t ∈ S then l.bucket t else [] := by
  induction S with
  | nil => simp
  | cons k S' ih =>
    have hnd' : S'.Nodup := (List.nodup_cons.1 hS).2
    simp only [List.flatMap_cons, List.filter_append]
    by_cases hkt : k = t
    · subst hkt
      have hkS' : k ∉ S' := (List.nodup_cons.1 hS).1
      have hfull : (l.bucket k).filter (fun x => decide (x.time = k)) = l.bucket k := by
        apply List.filter_eq_self.2
        intro e he
        simp [EventLog.bucket_times hwf k e he]
      rw [hfull, ih hnd', if_neg hkS', if_pos (List.mem_cons_self _ _)]
      simp
    · have hnil : (l.bucket k).filter (fun x => decide (x.time = t)) = [] := by
        apply List.filter_eq_nil_iff.2
        intro e he
        simp [EventLog.bucket_times hwf k e he, hkt]
      rw [hnil, ih hnd']
      by_cases htS : t ∈ S' <;> simp [htS, Ne.symm hkt]

theorem EventLog.filter_time_forward (l : EventLog) (hwf : l.wf) (t : Time) :
    l.forward.filter (fun x => decide (x.time = t)) = l.bucket t := by
  unfold EventLog.forward
  have hperm : List.Perm (List.insertionSort (· ≤ ·) l.keys) l.keys :=
    List.perm_insertionSort _ _
  have hnd : (List.insertionSort (· ≤ ·) l.keys).Nodup := hperm.symm.nodup hwf.1
  rw [flatMap_bucket_filter l hwf t _ hnd]
  by_cases hmem : t ∈ List.insertionSort (· ≤ ·) l.keys
  · rw [if_pos hmem]
  · rw [if_neg hmem, EventLog.bucket_eq_nil_of_not_mem (fun hc => hmem (hperm.mem_iff.2 hc))]

theorem pairwise_flatMap_bucket (l : EventLog) (hwf : l.wf) (S : List Time)
    (hsort : S.Sorted (· ≤ ·)) :
    (S.flatMap l.bucket).Pairwise (fun x y => x.time ≤ y.time) := by
  induction S with
  | nil => simp
  | cons k S' ih =>
    simp only [List.flatMap_cons]
    rw [List.pairwise_append]
    refine ⟨?_, ih hsort.of_cons, ?_⟩
    · apply List.pairwise_of_forall_mem_list
      intro x hx y hy
      rw [EventLog.bucket_times hwf k x hx, EventLog.bucket_times hwf k y hy]
    · intro x hx y hy
      obtain ⟨k', hk', hy'⟩ := List.mem_flatMap.1 hy
      rw [EventLog.bucket_times hwf k x hx, EventLog.bucket_times hwf k' y hy']
      exact List.rel_of_sorted_cons hsort k' hk'

theorem EventLog.forward_sorted (l : EventLog) (hwf : l.wf) :
    l.forward.Pairwise (fun x y => x.time ≤ y.time) :=
  pairwise_flatMap_bucket l hwf _ (List.sorted_insertionSort _ _)

theorem EventLog.forward_add_perm (l : EventLog) (hwf : l.wf) (e : Event) :
    List.Perm (l.add e).forward (e :: l.forward) := by
  by_cases hmem : e.time ∈ l.keys
  · have hkeys : (l.add e).keys = l.keys := by rw [EventLog.keys_add, if_pos hmem]
    have hS : e.time ∈ List.insertionSort (· ≤ ·) l.keys :=
      (List.perm_insertionSort _ _).mem_iff.2 hmem
    obtain ⟨s₁, s₂, hsplit⟩ := List.append_of_mem hS
    have hnd : (List.insertionSort (· ≤ ·) l.keys).Nodup :=
      (List.perm_insertionSort _ _).symm.nodup hwf.1
    rw [hsplit] at hnd
    have hn₂ : e.time ∉ s₂ := (List.nodup_cons.1 hnd.of_append_right).1
    have hdisj : s₁.Disjoint (e.time :: s₂) := List.disjoint_of_nodup_append hnd
    have hn₁ : e.time ∉ s₁ := fun hc => hdisj hc (List.mem_cons_self _ _)
    have h₁ : s₁.flatMap (l.add e).bucket = s₁.flatMap l.bucket :=
      flatMap_congr_mem (fun k hk => EventLog.bucket_add_ne l e (fun hc => hn₁ (hc ▸ hk)))
    have h₂ : s₂.flatMap (l.add e).bucket = s₂.flatMap l.bucket :=
      flatMap_congr_mem (fun k hk => EventLog.bucket_add_ne l e (fun hc => hn₂ (hc ▸ hk)))
    unfold EventLog.forward
    rw [hkeys, hsplit]
    simp only [List.flatMap_append, List.flatMap_cons, h₁, h₂, EventLog.bucket_add_self]
    have hmid := @List.perm_middle _ e
      (s₁.flatMap l.bucket ++ l.bucket e.time) (s₂.flatMap l.bucket)
    simp only [List.append_assoc, List.cons_append, List.singleton_append] at hmid ⊢
    exact hmid
  · have hkeys : (l.add e).keys = l.keys ++ [e.time] := by
      rw [EventLog.keys_add, if_neg hmem]
    have hSperm : List.Perm (List.insertionSort (· ≤ ·) (l.add e).keys)
        (e.time :: List.insertionSort (· ≤ ·) l.keys) := by
      rw [hkeys]
      exact (List.perm_insertionSort _ _).trans
        ((List.perm_append_singleton _ _).trans
          ((List.perm_insertionSort (· ≤ ·) l.keys).symm.cons e.time))
    have hcongr : (List.insertionSort (· ≤ ·) l.keys).flatMap (l.add e).bucket =
        (List.insertionSort (· ≤ ·) l.keys).flatMap l.bucket := by
      apply flatMap_congr_mem
      intro k hk
      apply EventLog.bucket_add_ne
      intro hc
      exact hmem (hc ▸ (List.perm_insertionSort (· ≤ ·) l.keys).mem_iff.1 hk)
    have hstep : (e.time :: List.insertionSort (· ≤ ·) l.keys).flatMap (l.add e).bucket
        = e :: (List.insertionSort (· ≤ ·) l.keys).flatMap l.bucket := by
      rw [List.flatMap_cons, hcongr, EventLog.bucket_add_self,
        EventLog.bucket_eq_nil_of_not_mem hmem]
      simp
    unfold EventLog.forward
    rw [← hstep]
    exact List.Perm.flatMap_right _ hSperm

theorem EventLog.wf_foldl_add {l : EventLog} (hwf : l.wf) (es : List Event) :
    (es.foldl EventLog.add l).wf := by
  induction es generalizing l with
  | nil => exact hwf
  | cons e es' ih => exact ih (EventLog.wf_add hwf e)

theorem EventLog.forward_foldl_add_perm (l : EventLog) (hwf : l.wf) (es : List Event) :
    List.Perm ((es.foldl EventLog.add l).forward) (es ++ l.forward) := by
  induction es generalizing l with
  | nil => simp [List.Perm.refl]
  | cons e es' ih =>
    simp only [List.foldl_cons, List.cons_append]
    have h1 := ih (l.add e) (EventLog.wf_add hwf e)
    have h2 := (EventLog.forward_add_perm l hwf e).append_left es'
    exact h1.trans (h2.trans List.perm_middle)

/-! ## Scrub-start synthesis lemmas -/

theorem est_scrub_duration_pos {rate : ℚ} (h : 0 < rate) (size : ℕ) :
    0 < est_scrub_duration rate size := by
  unfold est_scrub_duration
  have h1 : (0 : ℚ) ≤ (size : ℚ) / (rate / 1000000) := by positivity
  linarith

theorem sameExceptLog_refl (a : Analyzer) : SameExceptLog a a :=
  ⟨rfl, rfl, rfl, rfl, rfl, rfl, rfl, rfl, rfl, rfl, rfl⟩

theorem SameExceptLog.trans {a b c : Analyzer} (h1 : SameExceptLog a b)
    (h2 : SameExceptLog b c) : SameExceptLog a c :=
  ⟨h2.1.trans h1.1, h2.2.1.trans h1.2.1, h2.2.2.1.trans h1.2.2.1,
    h2.2.2.2.1.trans h1.2.2.2.1, h2.2.2.2.2.1.trans h1.2.2.2.2.1,
    h2.2.2.2.2.2.1.trans h1.2.2.2.2.2.1, h2.2.2.2.2.2.2.1.trans h1.2.2.2.2.2.2.1,
    h2.2.2.2.2.2.2.2.1.trans h1.2.2.2.2.2.2.2.1,
    h2.2.2.2.2.2.2.2.2.1.trans h1.2.2.2.2.2.2.2.2.1,
    h2.2.2.2.2.2.2.2.2.2.1.trans h1.2.2.2.2.2.2.2.2.2.1,
    h2.2.2.2.2.2.2.2.2.2.2.trans h1.2.2.2.2.2.2.2.2.2.2⟩

theorem add_scrub_start_step_same (a : Analyzer) (e : Event) :
    SameExceptLog a (add_scrub_start_step a e) := by
  cases e with
  | ScrubEvent t st s pg =>
    simp only [add_scrub_start_step, add_scrub_start_event]
    by_cases hst : st = SCRUB_DEEP
    · simp only [if_pos hst]
      exact ⟨rfl, rfl, rfl, rfl, rfl, rfl, rfl, rfl, rfl, rfl, rfl⟩
    · simp only [if_neg hst]
      exact sameExceptLog_refl a
  | OSDSlowRequestEvent t n d => exact sameExceptLog_refl a

theorem add_scrub_start_step_log (a : Analyzer) (e : Event) :
    (add_scrub_start_step a e).log =
      match synth_start? a.scrub_rate_est e with
      | some ev => a.log.add ev
      | none => a.log := by
  cases e with
  | ScrubEvent t st s pg =>
    simp only [add_scrub_start_step, add_scrub_start_event, synth_start?]
    by_cases hst : st = SCRUB_DEEP <;> simp [hst]
  | OSDSlowRequestEvent t n d => simp [add_scrub_start_step, synth_start?]

theorem synth_all_spec (a : Analyzer) (es : List Event) :
    SameExceptLog a (synth_all a es) ∧
    (synth_all a es).log = (synth_starts a.scrub_rate_est es).foldl EventLog.add a.log := by
  induction es generalizing a with
  | nil => exact ⟨sameExceptLog_refl a, Eq.refl a.log⟩
  | cons e es' ih =>
    have hsame : SameExceptLog a (add_scrub_start_step a e) := add_scrub_start_step_same a e
    have hrate : (add_scrub_start_step a e).scrub_rate_est = a.scrub_rate_est := hsame.2.1
    obtain ⟨ihsame, ihlog⟩ := ih (add_scrub_start_step a e)
    constructor
    · exact hsame.trans ihsame
    · show (synth_all (add_scrub_start_step a e) es').log = _
      rw [ihlog, hrate, add_scrub_start_step_log a e]
      unfold synth_starts
      rw [List.filterMap_cons]
      cases hs : synth_start? a.scrub_rate_est e with
      | none => rfl
      | some ev => rfl

/-- `synth_start?` produces events at strictly earlier timestamps than its
input when the configured rate is positive. -/
theorem synth_start?_time_lt {rate : ℚ} (hrate : 0 < rate) (e : Event) {ev : Event}
    (h : synth_start? rate e = some ev) : ev.time < e.time := by
  cases e with
  | ScrubEvent t st s pg =>
    simp only [synth_start?] at h
    by_cases hst : st = SCRUB_DEEP
    · rw [if_pos hst, Option.some.injEq] at h
      subst h
      simp only [Event.time]
      have := est_scrub_duration_pos hrate pg.bytes
      linarith
    · rw [if_neg hst] at h
      exact absurd h (by simp)
  | OSDSlowRequestEvent t n d => exact absurd h (by simp [synth_start?])

theorem synth_all_bucket_ge (a : Analyzer) (t : Time) (es : List Event)
    (hrate : 0 < a.scrub_rate_est) (hts : ∀ e ∈ es, e.time = t) :
    ∀ s, t ≤ s → (synth_all a es).log.bucket s = a.log.bucket s := by
  induction es generalizing a with
  | nil => intro s _; rfl
  | cons e es' ih =>
    intro s hs
    have hsame : SameExceptLog a (add_scrub_start_step a e) := add_scrub_start_step_same a e
    have hrate' : 0 < (add_scrub_start_step a e).scrub_rate_est := by
      rw [hsame.2.1]; exact hrate
    have hstep : (add_scrub_start_step a e).log.bucket s = a.log.bucket s := by
      rw [add_scrub_start_step_log a e]
      cases hs' : synth_start? a.scrub_rate_est e with
      | none => rfl
      | some ev =>
        simp only
        apply EventLog.bucket_add_ne
        have := synth_start?_time_lt hrate e hs'
        rw [hts e (List.mem_cons_self _ _)] at this
        intro hc
        rw [hc] at hs
        linarith
    show (synth_all (add_scrub_start_step a e) es').log.bucket s = a.log.bucket s
    rw [ih (add_scrub_start_step a e) hrate'
      (fun x hx => hts x (List.mem_cons_of_mem _ hx)) s hs, hstep]

theorem synth_all_wf {a : Analyzer} (hwf : a.log.wf) (es : List Event) :
    (synth_all a es).log.wf := by
  rw [(synth_all_spec a es).2]
  exact EventLog.wf_foldl_add hwf _

theorem add_scrub_start_bucket_spec (t : Time) (fuel : ℕ) :
    ∀ (i : ℕ) (a : Analyzer) (b : List Event),
    a.log.bucket t = b →
    (∀ e ∈ b, e.time = t) →
    0 < a.scrub_rate_est →
    b.length - i ≤ fuel →
    add_scrub_start_bucket t fuel a i = synth_all a (b.drop i) := by
  induction fuel with
  | zero =>
    intro i a b hb hts hrate hfuel
    have hlen : b.length ≤ i := Nat.le_of_sub_eq_zero (Nat.le_zero.1 hfuel)
    rw [List.drop_eq_nil_of_le hlen]
    rfl
  | succ fuel ih =>
    intro i a b hb hts hrate hfuel
    subst hb
    unfold add_scrub_start_bucket
    by_cases h : i < (a.log.bucket t).length
    · rw [dif_pos h]
      set e := (a.log.bucket t).get ⟨i, h⟩ with he
      have hmem : e ∈ a.log.bucket t := List.get_mem _ _ h
      have het : e.time = t := hts e hmem
      have hsame : SameExceptLog a (add_scrub_start_step a e) := add_scrub_start_step_same a e
      have hrate' : 0 < (add_scrub_start_step a e).scrub_rate_est := by
        rw [hsame.2.1]; exact hrate
      have hb' : (add_scrub_start_step a e).log.bucket t = a.log.bucket t :=
        synth_all_bucket_ge a t [e] hrate (by simp [het]) t le_rfl
      have hfuel' : (a.log.bucket t).length - (i + 1) ≤ fuel := by omega
      rw [ih (i + 1) (add_scrub_start_step a e) (a.log.bucket t) hb' hts hrate' hfuel']
      rw [List.drop_eq_get_cons h]
      rfl
    · rw [dif_neg h]
      rw [List.drop_eq_nil_of_le (Nat.le_of_not_lt h)]
      rfl

theorem add_scrub_start_events_foldl (a₀ : Analyzer) :
    ∀ (S : List Time) (acc : Analyzer),
    acc.log.wf →
    acc.scrub_rate_est = a₀.scrub_rate_est →
    0 < a₀.scrub_rate_est →
    (∀ t ∈ S, acc.log.bucket t = a₀.log.bucket t) →
    (∀ t ∈ S, ∀ e ∈ a₀.log.bucket t, e.time = t) →
    S.Sorted (· ≤ ·) →
    S.foldl (fun acc t => add_scrub_start_bucket t (acc.log.size + 1) acc 0) acc
      = synth_all acc (S.flatMap a₀.log.bucket) := by
  intro S
  induction S with
  | nil => intro acc _ _ _ _ _ _; rfl
  | cons t S' ih =>
    intro acc hwf hrate hrate₀ hbuck hts hsort
    have hbt : acc.log.bucket t = a₀.log.bucket t := hbuck t (List.mem_cons_self _ _)
    have htimes : ∀ e ∈ a₀.log.bucket t, e.time = t := hts t (List.mem_cons_self _ _)
    have hratea : 0 < acc.scrub_rate_est := by rw [hrate]; exact hrate₀
    have hfuel : (a₀.log.bucket t).length - 0 ≤ acc.log.size + 1 := by
      have h1 : (acc.log.bucket t).length ≤ acc.log.size :=
        EventLog.bucket_length_le_size acc.log t
      rw [hbt] at h1
      omega
    have hstep : add_scrub_start_bucket t (acc.log.size + 1) acc 0
        = synth_all acc (a₀.log.bucket t) := by
      rw [add_scrub_start_bucket_spec t (acc.log.size + 1) 0 acc (a₀.log.bucket t)
        hbt htimes hratea hfuel]
      rw [List.drop_zero]
    set acc₁ := synth_all acc (a₀.log.bucket t) with hacc₁
    have hsame₁ : SameExceptLog acc acc₁ := (synth_all_spec acc _).1
    have hwf₁ : acc₁.log.wf := synth_all_wf hwf _
    have hrate₁ : acc₁.scrub_rate_est = a₀.scrub_rate_est := hsame₁.2.1.trans hrate
    have hbuck₁ : ∀ s ∈ S', acc₁.log.bucket s = a₀.log.bucket s := by
      intro s hsS
      have hts' : t ≤ s := List.rel_of_sorted_cons hsort s hsS
      have : acc₁.log.bucket s = acc.log.bucket s :=
        synth_all_bucket_ge acc t (a₀.log.bucket t) hratea htimes s hts'
      rw [this]
      exact hbuck s (List.mem_cons_of_mem _ hsS)
    have ihres := ih acc₁ hwf₁ hrate₁ hrate₀ hbuck₁
      (fun s hsS => hts s (List.mem_cons_of_mem _ hsS)) hsort.of_cons
    simp only [List.foldl_cons, List.flatMap_cons]
    rw [hstep, ihres, hacc₁]
    unfold synth_all
    rw [List.foldl_append]

/-- With a well-formed log and a positive configured rate,
`add_scrub_start_events` is exactly the fold of the loop body over the
snapshot `forward()` listing taken before the pass: synthesized events, all
landing at strictly earlier timestamps, are never themselves revisited. -/
theorem add_scrub_start_events_eq_synth_all (a : Analyzer) (hwf : a.log.wf)
    (hrate : 0 < a.scrub_rate_est) :
    add_scrub_start_events a = synth_all a a.log.forward := by
  unfold add_scrub_start_events
  exact add_scrub_start_events_foldl a (List.insertionSort (· ≤ ·) a.log.keys) a
    hwf rfl hrate (fun t _ => rfl) (fun t _ => EventLog.bucket_times hwf t)
    (List.sorted_insertionSort _ _)

theorem synth_starts_eq (rate : ℚ) (es : List Event) :
    synth_starts rate es = (es.filter is_deep_scrub_event).map (start_event_of rate) := by
  induction es with
  | nil => rfl
  | cons e es' ih =>
    unfold synth_starts at ih ⊢
    rw [List.filterMap_cons, List.filter_cons]
    cases e with
    | ScrubEvent t st s pg =>
      by_cases hst : st = SCRUB_DEEP
      · simp [synth_start?, hst, is_deep_scrub_event, start_event_of, ih]
      · simp [synth_start?, hst, is_deep_scrub_event, ih]
    | OSDSlowRequestEvent t n d => simp [synth_start?, is_deep_scrub_event, ih]

theorem addsOnlyStarts_refl (a : Analyzer) : AddsOnlyStarts a a :=
  ⟨sameExceptLog_refl a, [], by simp, rfl⟩

theorem addsOnlyStarts_trans {a b c : Analyzer} (h1 : AddsOnlyStarts a b)
    (h2 : AddsOnlyStarts b c) : AddsOnlyStarts a c := by
  obtain ⟨hs1, l1, hl1, he1⟩ := h1
  obtain ⟨hs2, l2, hl2, he2⟩ := h2
  refine ⟨hs1.trans hs2, l1 ++ l2, ?_, ?_⟩
  · intro e he
    rcases List.mem_append.1 he with h | h
    · exact hl1 e h
    · exact hl2 e h
  · rw [List.foldl_append, ← he1, ← he2]

theorem add_scrub_start_step_aos (a : Analyzer) (e : Event) :
    AddsOnlyStarts a (add_scrub_start_step a e) := by
  refine ⟨add_scrub_start_step_same a e, ?_⟩
  cases hs : synth_start? a.scrub_rate_est e with
  | none =>
    refine ⟨[], by simp, ?_⟩
    rw [add_scrub_start_step_log, hs]
    rfl
  | some ev =>
    refine ⟨[ev], ?_, ?_⟩
    · intro x hx
      simp only [List.mem_singleton] at hx
      subst hx
      cases e with
      | ScrubEvent t st s pg =>
        simp only [synth_start?] at hs
        by_cases hst : st = SCRUB_DEEP
        · rw [if_pos hst, Option.some.injEq] at hs
          exact ⟨t - est_scrub_duration a.scrub_rate_est pg.bytes, pg, by rw [← hs, hst]⟩
        · rw [if_neg hst] at hs
          exact absurd hs (by simp)
      | OSDSlowRequestEvent t n d => simp [synth_start?] at hs
    · rw [add_scrub_start_step_log, hs]
      rfl

theorem add_scrub_start_bucket_aos (t : Time) (fuel : ℕ) :
    ∀ (i : ℕ) (a : Analyzer), AddsOnlyStarts a (add_scrub_start_bucket t fuel a i) := by
  induction fuel with
  | zero => intro i a; exact addsOnlyStarts_refl a
  | succ fuel ih =>
    intro i a
    unfold add_scrub_start_bucket
    by_cases h : i < (a.log.bucket t).length
    · rw [dif_pos h]
      exact addsOnlyStarts_trans (add_scrub_start_step_aos a _) (ih _ _)
    · rw [dif_neg h]
      exact addsOnlyStarts_refl a

theorem add_scrub_start_events_aos (a : Analyzer) :
    AddsOnlyStarts a (add_scrub_start_events a) := by
  unfold add_scrub_start_events
  generalize List.insertionSort (· ≤ ·) a.log.keys = S
  induction S generalizing a with
  | nil => exact addsOnlyStarts_refl a
  | cons t S' ih =>
    simp only [List.foldl_cons]
    exact addsOnlyStarts_trans (add_scrub_start_bucket_aos t _ 0 a) (ih _)

/-! ## Classifier evaluation lemmas -/

theorem dictGet_map_set {α β : Type} [DecidableEq α] (l : List (α × β)) (k : α) (v : β)
    (h : k ∈ l.map Prod.fst) :
    dictGet k (l.map (fun p => if p.1 = k then (k, v) else p)) = some v := by
  induction l with
  | nil => simp at h
  | cons p ps ih =>
    by_cases hp : p.1 = k
    · simp [dictGet, hp]
    · simp only [List.map_cons, List.mem_cons] at h
      rcases h with h | h
      · exact absurd h.symm (by simpa using hp)
      · simp only [List.map_cons, if_neg hp, dictGet, hp, if_false]
        exact ih h

theorem dictGet_dictSet_self {α β : Type} [DecidableEq α] (l : List (α × β)) (k : α) (v : β) :
    dictGet k (dictSet l k v) = some v := by
  unfold dictSet
  cases hd : dictGet k l with
  | some w =>
    exact dictGet_map_set l k v ((dictGet_isSome_iff k l).1 (by simp [hd]))
  | none =>
    rw [dictGet_append]
    simp [hd, dictGet]

theorem osd_host_ok {a : Analyzer} {x : ℕ} {hx : Option String}
    (h : osd_host a x = .ok hx) : dictGet x a.osd_to_host = some hx := by
  unfold osd_host at h
  cases hd : dictGet x a.osd_to_host with
  | none => rw [hd] at h; exact absurd h (by simp)
  | some w =>
    rw [hd] at h
    simp only [Except.ok.injEq] at h
    rw [h]

theorem resolve_hosts_ok {a : Analyzer} :
    ∀ {xs : List ℕ} {hs : List (Option String)}, resolve_hosts a xs = .ok hs →
    hs.length = xs.length ∧
    ∀ (i : ℕ) (hi : i < xs.length) (hh : i < hs.length),
      dictGet (xs.get ⟨i, hi⟩) a.osd_to_host = some (hs.get ⟨i, hh⟩) := by
  intro xs
  induction xs with
  | nil =>
    intro hs h
    simp only [resolve_hosts, Except.ok.injEq] at h
    subst h
    exact ⟨rfl, fun i hi => absurd hi (by simp)⟩
  | cons x xs' ih =>
    intro hs h
    simp only [resolve_hosts] at h
    cases ho : osd_host a x with
    | error e => rw [ho] at h; exact absurd h (by simp)
    | ok hx =>
      rw [ho] at h
      cases hr : resolve_hosts a xs' with
      | error e => rw [hr] at h; exact absurd h (by simp)
      | ok hs' =>
        rw [hr] at h
        simp only [Except.ok.injEq] at h
        subst h
        obtain ⟨hlen, hidx⟩ := ih hr
        refine ⟨by simp [hlen], ?_⟩
        intro i hi hh
        cases i with
        | zero => simpa using osd_host_ok ho
        | succ j =>
          have hj : j < xs'.length := by simpa using hi
          have hj' : j < hs'.length := by simpa using hh
          simpa using hidx j hj hj'

theorem parse_osd_log_scrub_line_shallow (a : Analyzer) (pgid : String) (t : Time) :
    parse_osd_log_scrub_line a pgid "scrub" t
      = .ok { a with shallow_count := a.shallow_count + 1,
                     scrub_count := a.scrub_count + 1 } := rfl

theorem parse_osd_log_scrub_line_deep_found (a : Analyzer) (pgid : String) (t : Time)
    {pg : PG} (h : dictGet pgid a.pg = some pg) :
    parse_osd_log_scrub_line a pgid "deep-scrub" t
      = .ok { a with deep_count := a.deep_count + 1,
                     log := a.log.add (.ScrubEvent t SCRUB_DEEP false pg),
                     scrub_count := a.scrub_count + 1 } := by
  unfold parse_osd_log_scrub_line parse_scrub_type
  simp [h, SCRUB_SHALLOW, SCRUB_DEEP]

theorem parse_osd_log_scrub_line_deep_missing (a : Analyzer) (pgid : String) (t : Time)
    (h : dictGet pgid a.pg = none) :
    parse_osd_log_scrub_line a pgid "deep-scrub" t
      = .error (.keyError, { a with deep_count := a.deep_count + 1 }) := by
  unfold parse_osd_log_scrub_line parse_scrub_type
  simp [h, SCRUB_SHALLOW, SCRUB_DEEP]

theorem parse_pg_ok_shape {a : Analyzer} {pgid : String} {objects bytes : ℕ}
    {up_set : List ℕ} {up_primary : ℕ} {acting_set : List ℕ} {acting_primary : ℕ}
    {a₁ : Analyzer}
    (h : parse_pg a pgid objects bytes up_set up_primary acting_set acting_primary = .ok a₁) :
    ∃ hosts, resolve_hosts a acting_set = .ok hosts ∧
      up_set.head? = some up_primary ∧ acting_set.head? = some acting_primary ∧
      a₁ = { a with pg := dictSet a.pg pgid (PG.mk pgid objects bytes up_set acting_set hosts) } := by
  unfold parse_pg at h
  cases h1 : up_set.head? with
  | none => rw [h1] at h; simp at h
  | some u0 =>
    rw [h1] at h
    simp only at h
    by_cases h2 : u0 = up_primary
    · rw [if_pos h2] at h
      cases h3 : acting_set.head? with
      | none => rw [h3] at h; simp at h
      | some a0 =>
        rw [h3] at h
        simp only at h
        by_cases h4 : a0 = acting_primary
        · rw [if_pos h4] at h
          cases h5 : resolve_hosts a acting_set with
          | error e => rw [h5] at h; simp at h
          | ok hosts =>
            rw [h5] at h
            simp only [Except.ok.injEq] at h
            exact ⟨hosts, rfl, by rw [h2], by rw [h4], h.symm⟩
        · rw [if_neg h4] at h; simp at h
    · rw [if_neg h2] at h; simp at h

theorem parse_pg_error_state {a : Analyzer} {pgid : String} {objects bytes : ℕ}
    {up_set : List ℕ} {up_primary : ℕ} {acting_set : List ℕ} {acting_primary : ℕ}
    {e : Err} {a₁ : Analyzer}
    (h : parse_pg a pgid objects bytes up_set up_primary acting_set acting_primary
      = .error (e, a₁)) : a₁ = a := by
  unfold parse_pg at h
  cases h1 : up_set.head? with
  | none =>
    rw [h1] at h
    simp only [Except.error.injEq, Prod.mk.injEq] at h
    exact h.2.symm
  | some u0 =>
    rw [h1] at h
    simp only at h
    by_cases h2 : u0 = up_primary
    · rw [if_pos h2] at h
      cases h3 : acting_set.head? with
      | none =>
        rw [h3] at h
        simp only [Except.error.injEq, Prod.mk.injEq] at h
        exact h.2.symm
      | some a0 =>
        rw [h3] at h
        simp only at h
        by_cases h4 : a0 = acting_primary
        · rw [if_pos h4] at h
          cases h5 : resolve_hosts a acting_set with
          | error e' =>
            rw [h5] at h
            simp only [Except.error.injEq, Prod.mk.injEq] at h
            exact h.2.symm
          | ok hosts => rw [h5] at h; simp at h
        · rw [if_neg h4] at h
          simp only [Except.error.injEq, Prod.mk.injEq] at h
          exact h.2.symm
    · rw [if_neg h2] at h
      simp only [Except.error.injEq, Prod.mk.injEq] at h
      exact h.2.symm

theorem parse_line_counts (a : Analyzer) (l : Line) (a₁ : Analyzer)
    (h : parse_line a l = .ok a₁) :
    a₁.min_time = a.min_time ∧
    a₁.scrub_count = a.scrub_count + (if is_scrub_line a.min_time l then 1 else 0) ∧
    a₁.shallow_count = a.shallow_count + (if is_shallow_line a.min_time l then 1 else 0) ∧
    a₁.deep_count = a.deep_count + (if is_deep_line a.min_time l then 1 else 0) ∧
    a₁.scrub_count + a.shallow_count + a.deep_count
      = a.scrub_count + a₁.shallow_count + a₁.deep_count := by
  cases l with
  | osdLog n t sev rest raw =>
    by_cases hp : min_time_passes a.min_time t
    · cases rest with
      | scrubRest pgid tok =>
        have h' : parse_osd_log_scrub_line a pgid tok t = .ok a₁ := by
          simpa [parse_line, parse_osd_log_line, hp] using h
        by_cases h1 : tok = "scrub"
        · subst h1
          rw [parse_osd_log_scrub_line_shallow] at h'
          simp only [Except.ok.injEq] at h'
          subst h'
          simp [is_scrub_line, is_shallow_line, is_deep_line, hp]
          omega
        · by_cases h2 : tok = "deep-scrub"
          · subst h2
            cases hd : dictGet pgid a.pg with
            | none =>
              rw [parse_osd_log_scrub_line_deep_missing a pgid t hd] at h'
              simp at h'
            | some pg =>
              rw [parse_osd_log_scrub_line_deep_found a pgid t hd] at h'
              simp only [Except.ok.injEq] at h'
              subst h'
              simp [is_scrub_line, is_shallow_line, is_deep_line, hp]
              omega
          · exact absurd h'
              (by simp [parse_osd_log_scrub_line, parse_scrub_type, h1, h2])
      | slowRest age received ex =>
        obtain ⟨txt, shape⟩ := ex
        cases shape with
        | osdOp =>
          have h' : ({ a with log := a.log.add (.OSDSlowRequestEvent t n txt) } : Analyzer)
              = a₁ := by
            simpa [parse_line, parse_osd_log_line, parse_osd_log_slow_line, hp] using h
          subst h'
          simp [is_scrub_line, is_shallow_line, is_deep_line]
        | subOp =>
          have h' : ({ a with log := a.log.add (.OSDSlowRequestEvent t n txt) } : Analyzer)
              = a₁ := by
            simpa [parse_line, parse_osd_log_line, parse_osd_log_slow_line, hp] using h
          subst h'
          simp [is_scrub_line, is_shallow_line, is_deep_line]
        | subOpReply =>
          have h' : ({ a with log := a.log.add (.OSDSlowRequestEvent t n txt) } : Analyzer)
              = a₁ := by
            simpa [parse_line, parse_osd_log_line, parse_osd_log_slow_line, hp] using h
          subst h'
          simp [is_scrub_line, is_shallow_line, is_deep_line]
        | unrecognized =>
          cases ho : osd_host a n with
          | error e =>
            exact absurd h
              (by simp [parse_line, parse_osd_log_line, parse_osd_log_slow_line, hp, ho])
          | ok hx =>
            have h' : ({ a with output :=
                a.output ++ [slow_request_diag received n hx age txt] } : Analyzer) = a₁ := by
              simpa [parse_line, parse_osd_log_line, parse_osd_log_slow_line, hp, ho] using h
            subst h'
            simp [is_scrub_line, is_shallow_line, is_deep_line]
      | slowsRest n1 n2 s1 =>
        have h' : a = a₁ := by
          simpa [parse_line, parse_osd_log_line, hp] using h
        subst h'
        simp [is_scrub_line, is_shallow_line, is_deep_line]
      | paramRest v =>
        have h' : a = a₁ := by
          simpa [parse_line, parse_osd_log_line, hp] using h
        subst h'
        simp [is_scrub_line, is_shallow_line, is_deep_line]
      | unknownRest txt =>
        exact absurd h (by simp [parse_line, parse_osd_log_line, hp])
    · have hp' : min_time_passes a.min_time t = false := by
        simpa using hp
      have h' : a = a₁ := by
        simpa [parse_line, parse_osd_log_line, hp'] using h
      subst h'
      cases rest <;> simp [is_scrub_line, is_shallow_line, is_deep_line, hp']
  | pgLine pgid objects bytes status up_set up_primary acting_set acting_primary =>
    obtain ⟨hosts, _, _, _, heq⟩ := parse_pg_ok_shape h
    subst heq
    simp [is_scrub_line, is_shallow_line, is_deep_line]
  | treeHost host =>
    simp only [parse_line, Except.ok.injEq] at h
    subst h
    simp [parse_osd_tree_host, is_scrub_line, is_shallow_line, is_deep_line]
  | treeOsd osdno =>
    simp only [parse_line, Except.ok.injEq] at h
    subst h
    simp [parse_osd_tree_osd, is_scrub_line, is_shallow_line, is_deep_line]
  | stats osdno kb_used =>
    simp only [parse_line, Except.ok.injEq] at h
    subst h
    simp [parse_osd_stats, is_scrub_line, is_shallow_line, is_deep_line]
  | unknown raw =>
    simp only [parse_line, Except.ok.injEq] at h
    subst h
    by_cases hf : a.log_unknown_lines <;>
      simp [hf, is_scrub_line, is_shallow_line, is_deep_line]

theorem parse_lines_counts_aux :
    ∀ (ls : List Line) (a a' : Analyzer), parse_lines a ls = .ok a' →
    a'.min_time = a.min_time ∧
    a'.scrub_count = a.scrub_count + ls.countP (is_scrub_line a.min_time) ∧
    a'.shallow_count = a.shallow_count + ls.countP (is_shallow_line a.min_time) ∧
    a'.deep_count = a.deep_count + ls.countP (is_deep_line a.min_time) ∧
    a'.scrub_count + a.shallow_count + a.deep_count
      = a.scrub_count + a'.shallow_count + a'.deep_count := by
  intro ls
  induction ls with
  | nil =>
    intro a a' h
    simp only [parse_lines, Except.ok.injEq] at h
    subst h
    simp
  | cons l ls' ih =>
    intro a a' h
    simp only [parse_lines] at h
    cases hpl : parse_line a l with
    | error e => rw [hpl] at h; exact absurd h (by simp)
    | ok a₁ =>
      rw [hpl] at h
      obtain ⟨hmin, hs, hsh, hd, hbal⟩ := parse_line_counts a l a₁ hpl
      obtain ⟨hmin', hs', hsh', hd', hbal'⟩ := ih a₁ a' h
      rw [hmin] at hmin' hs' hsh' hd'
      refine ⟨hmin', ?_, ?_, ?_, by omega⟩
      · rw [hs', hs, List.countP_cons]
        omega
      · rw [hsh', hsh, List.countP_cons]
        omega
      · rw [hd', hd, List.countP_cons]
        omega

theorem osd_host_with_min (a : Analyzer) (m : Option Time) (x : ℕ) :
    osd_host (with_min a m) x = osd_host a x := rfl

theorem resolve_hosts_with_min (a : Analyzer) (m : Option Time) :
    ∀ xs, resolve_hosts (with_min a m) xs = resolve_hosts a xs := by
  intro xs
  induction xs with
  | nil => rfl
  | cons x xs' ih =>
    unfold resolve_hosts
    rw [osd_host_with_min, ih]

theorem parse_pg_with_min (a : Analyzer) (m : Option Time) (pgid : String)
    (objects bytes : ℕ) (up_set : List ℕ) (up_primary : ℕ) (acting_set : List ℕ)
    (acting_primary : ℕ) :
    parse_pg (with_min a m) pgid objects bytes up_set up_primary acting_set acting_primary
      = except_with_min m
          (parse_pg a pgid objects bytes up_set up_primary acting_set acting_primary) := by
  unfold parse_pg
  rw [resolve_hosts_with_min]
  cases up_set.head? with
  | none => rfl
  | some u0 =>
    simp only
    by_cases h2 : u0 = up_primary
    · rw [if_pos h2, if_pos h2]
      cases acting_set.head? with
      | none => rfl
      | some a0 =>
        simp only
        by_cases h4 : a0 = acting_primary
        · rw [if_pos h4, if_pos h4]
          cases resolve_hosts a acting_set with
          | error e => rfl
          | ok hosts => rfl
        · rw [if_neg h4, if_neg h4]
          rfl
    · rw [if_neg h2, if_neg h2]
      rfl

/-! ## Claim theorems -/

/-- C10: the scrub-start synthesis pass mutates only the Event Log: for every
analyzer state, after `add_scrub_start_events` the topology mapping, the PG
registry, the per-node used-capacity map, the scrub/shallow/deep counters
(and the configuration, cursor and output) are all unchanged, and the log has
only had deep `ScrubEvent`s with the start marker added to it. -/
theorem add_scrub_start_events_frame (a : Analyzer) :
    (add_scrub_start_events a).osd_to_host = a.osd_to_host ∧
    (add_scrub_start_events a).pg = a.pg ∧
    (add_scrub_start_events a).osd_to_kb_used = a.osd_to_kb_used ∧
    (add_scrub_start_events a).scrub_count = a.scrub_count ∧
    (add_scrub_start_events a).shallow_count = a.shallow_count ∧
    (add_scrub_start_events a).deep_count = a.deep_count ∧
    (add_scrub_start_events a).min_time = a.min_time ∧
    (add_scrub_start_events a).scrub_rate_est = a.scrub_rate_est ∧
    (add_scrub_start_events a).log_unknown_lines = a.log_unknown_lines ∧
    (add_scrub_start_events a).current_host = a.current_host ∧
    (add_scrub_start_events a).output = a.output ∧
    ∃ added : List Event,
      (∀ e ∈ added, ∃ t pg, e = Event.ScrubEvent t SCRUB_DEEP true pg) ∧
      (add_scrub_start_events a).log = added.foldl EventLog.add a.log := by
  obtain ⟨⟨h1, h2, h3, h4, h5, h6, h7, h8, h9, h10, h11⟩, hadd⟩ :=
    add_scrub_start_events_aos a
  exact ⟨h7, h9, h8, h4, h5, h6, h1, h2, h3, h10, h11, hadd⟩

/-- C2: after the synthesis pass run on a well-formed log of end events (with
a positive configured rate), the final log contains, with multiplicity,
exactly the original events plus one synthesized start event per deep
`ScrubEvent` of the pre-pass snapshot, each with timestamp
`end.time - est_scrub_duration(bytes)`, the same scrub type and PG, and the
start marker; the synthesized list is computed from the snapshot only (no
synthesized event is revisited by the pass), and no start is ever synthesized
from a shallow scrub or a slow-request event. -/
theorem add_scrub_start_events_synthesizes_starts (a : Analyzer) (hwf : a.log.wf)
    (hrate : 0 < a.scrub_rate_est)
    (hends : ∀ e ∈ a.log.forward, is_scrub_start_event e = false) :
    (∀ ev : Event, (add_scrub_start_events a).log.forward.count ev
        = a.log.forward.count ev + (synth_starts a.scrub_rate_est a.log.forward).count ev) ∧
    synth_starts a.scrub_rate_est a.log.forward
      = (a.log.forward.filter is_deep_scrub_event).map (start_event_of a.scrub_rate_est) ∧
    (∀ e ∈ a.log.forward.filter is_deep_scrub_event,
      ∃ t pg, e = Event.ScrubEvent t SCRUB_DEEP false pg ∧
        start_event_of a.scrub_rate_est e
          = Event.ScrubEvent (t - est_scrub_duration a.scrub_rate_est pg.bytes)
              SCRUB_DEEP true pg) ∧
    (∀ ev ∈ synth_starts a.scrub_rate_est a.log.forward,
      is_scrub_start_event ev = true ∧ is_deep_scrub_event ev = true) := by
  have heq := add_scrub_start_events_eq_synth_all a hwf hrate
  have hlog := (synth_all_spec a a.log.forward).2
  refine ⟨?_, synth_starts_eq _ _, ?_, ?_⟩
  · intro ev
    have hperm := EventLog.forward_foldl_add_perm a.log hwf
      (synth_starts a.scrub_rate_est a.log.forward)
    rw [heq, hlog, hperm.count_eq ev, List.count_append]
    omega
  · intro e he
    rw [List.mem_filter] at he
    obtain ⟨hmem, hdeep⟩ := he
    cases e with
    | ScrubEvent t st s pg =>
      simp only [is_deep_scrub_event, decide_eq_true_eq] at hdeep
      have hs : s = false := by simpa [is_scrub_start_event] using hends _ hmem
      subst hdeep
      exact ⟨t, pg, by rw [hs], by simp [start_event_of]⟩
    | OSDSlowRequestEvent t n d => simp [is_deep_scrub_event] at hdeep
  · intro ev hev
    unfold synth_starts at hev
    rw [List.mem_filterMap] at hev
    obtain ⟨e, hmem, hsome⟩ := hev
    cases e with
    | ScrubEvent t st s pg =>
      simp only [synth_start?] at hsome
      by_cases hst : st = SCRUB_DEEP
      · rw [if_pos hst, Option.some.injEq] at hsome
        subst hsome
        exact ⟨by simp [is_scrub_start_event], by simp [is_deep_scrub_event, hst]⟩
      · rw [if_neg hst] at hsome
        exact absurd hsome (by simp)
    | OSDSlowRequestEvent t n d => simp [synth_start?] at hsome

theorem add_scrub_start_events_synthesizes_starts_witness :
    c2_a.log.wf ∧ 0 < c2_a.scrub_rate_est ∧
    (∀ e ∈ c2_a.log.forward, is_scrub_start_event e = false) ∧
    ((∀ ev : Event, (add_scrub_start_events c2_a).log.forward.count ev
        = c2_a.log.forward.count ev
          + (synth_starts c2_a.scrub_rate_est c2_a.log.forward).count ev) ∧
      synth_starts c2_a.scrub_rate_est c2_a.log.forward
        = (c2_a.log.forward.filter is_deep_scrub_event).map
            (start_event_of c2_a.scrub_rate_est) ∧
      (∀ e ∈ c2_a.log.forward.filter is_deep_scrub_event,
        ∃ t pg, e = Event.ScrubEvent t SCRUB_DEEP false pg ∧
          start_event_of c2_a.scrub_rate_est e
            = Event.ScrubEvent (t - est_scrub_duration c2_a.scrub_rate_est pg.bytes)
                SCRUB_DEEP true pg) ∧
      (∀ ev ∈ synth_starts c2_a.scrub_rate_est c2_a.log.forward,
        is_scrub_start_event ev = true ∧ is_deep_scrub_event ev = true)) :=
  ⟨by decide, by decide, by decide,
    add_scrub_start_events_synthesizes_starts c2_a (by decide) (by decide) (by decide)⟩

/-- C6: `forward()` yields all stored events in non-decreasing timestamp
order; `add(event)` appends to the bucket for the event's timestamp
(creating it if absent) and never removes or reorders existing events:
restricted to any timestamp `t`, the traversal after an `add` is the
traversal before it, extended by the new event exactly when its time is `t`;
well-formedness is preserved. -/
theorem eventlog_forward_sorted_add_appends (l : EventLog) (e : Event) (t : Time)
    (hwf : l.wf) :
    l.forward.Pairwise (fun x y => x.time ≤ y.time) ∧
    (l.add e).forward.filter (fun x => decide (x.time = t))
      = l.forward.filter (fun x => decide (x.time = t))
          ++ (if e.time = t then [e] else []) ∧
    (l.add e).wf := by
  refine ⟨EventLog.forward_sorted l hwf, ?_, EventLog.wf_add hwf e⟩
  rw [EventLog.filter_time_forward l hwf t,
    EventLog.filter_time_forward _ (EventLog.wf_add hwf e) t]
  by_cases ht : e.time = t
  · rw [if_pos ht, ← ht, EventLog.bucket_add_self]
  · rw [if_neg ht, EventLog.bucket_add_ne l e (Ne.symm ht)]
    simp

theorem eventlog_forward_sorted_add_appends_witness :
    c6_log.wf ∧
    (c6_log.forward.Pairwise (fun x y => x.time ≤ y.time) ∧
      (c6_log.add c6_event).forward.filter (fun x => decide (x.time = 5))
        = c6_log.forward.filter (fun x => decide (x.time = 5))
            ++ (if c6_event.time = 5 then [c6_event] else []) ∧
      (c6_log.add c6_event).wf) :=
  ⟨by decide, eventlog_forward_sorted_add_appends c6_log c6_event 5 (by decide)⟩

/-- C9: after a full classification pass that completes without a fatal
error, `scrub_count = shallow_count + deep_count`, and each counter equals
the number of recognized scrub-completion lines of its kind (so each such
line increments it exactly once, and no other line kind touches it). -/
theorem scrub_counters_spec (min_time : Option Time) (scrub_rate_est : ℚ)
    (log_unknown_lines : Bool) (ls : List Line) (a' : Analyzer)
    (h : parse_lines (CephScrubLogAnalyzer.init min_time scrub_rate_est log_unknown_lines) ls
      = .ok a') :
    a'.scrub_count = a'.shallow_count + a'.deep_count ∧
    a'.scrub_count = ls.countP (is_scrub_line min_time) ∧
    a'.shallow_count = ls.countP (is_shallow_line min_time) ∧
    a'.deep_count = ls.countP (is_deep_line min_time) := by
  obtain ⟨hmin, hs, hsh, hd, hbal⟩ := parse_lines_counts_aux ls _ a' h
  simp only [CephScrubLogAnalyzer.init] at hs hsh hd hbal
  exact ⟨by omega, by simpa using hs, by simpa using hsh, by simpa using hd⟩

theorem scrub_counters_spec_witness :
    parse_lines (CephScrubLogAnalyzer.init none SCRUB_RATE_EST false) c9_lines
      = .ok c9_res ∧
    (c9_res.scrub_count = c9_res.shallow_count + c9_res.deep_count ∧
      c9_res.scrub_count = c9_lines.countP (is_scrub_line none) ∧
      c9_res.shallow_count = c9_lines.countP (is_shallow_line none) ∧
      c9_res.deep_count = c9_lines.countP (is_deep_line none)) :=
  ⟨by decide, scrub_counters_spec none SCRUB_RATE_EST false c9_lines c9_res (by decide)⟩

/-- C1 counterexample: a slow-request line whose enclosing log-line timestamp
(30000000) differs from the embedded received-at timestamp (0).  The stored
`OSDSlowRequestEvent` carries the enclosing line's timestamp, refuting the
claim that its timestamp equals the received-at one. -/
theorem slow_request_event_not_at_received_time :
    (parse_line (CephScrubLogAnalyzer.init none SCRUB_RATE_EST false)
        (Line.osdLog 3 30000000 "WRN"
          (Rest.slowRest 30 0 ⟨"osd_op(x) v4 currently waiting for scrub", ExplanShape.osdOp⟩)
          "r")).map (fun a => a.log.forward.map Event.time)
      = .ok [30000000] ∧
    (0 : ℚ) ≠ 30000000 :=
  ⟨by decide, by decide⟩

/-- C1 amended: for every per-node log line whose remainder matches the
slow-request grammar and whose explanation matches one of the three known
sub-shapes, the appended `OSDSlowRequestEvent` carries the enclosing log
line's own timestamp; the embedded received-at timestamp is parsed but only
used in the diagnostic branch. -/
theorem slow_request_event_uses_line_timestamp (a : Analyzer) (n : ℕ) (t : Time)
    (sev raw txt : String) (age : ℚ) (received : Time) (shape : ExplanShape)
    (hp : min_time_passes a.min_time t = true)
    (hs : shape ≠ ExplanShape.unrecognized) :
    parse_line a (Line.osdLog n t sev (Rest.slowRest age received ⟨txt, shape⟩) raw)
      = .ok { a with log := a.log.add (Event.OSDSlowRequestEvent t n txt) } := by
  cases shape with
  | osdOp => simp [parse_line, parse_osd_log_line, parse_osd_log_slow_line, hp]
  | subOp => simp [parse_line, parse_osd_log_line, parse_osd_log_slow_line, hp]
  | subOpReply => simp [parse_line, parse_osd_log_line, parse_osd_log_slow_line, hp]
  | unrecognized => exact absurd rfl hs

theorem slow_request_event_uses_line_timestamp_witness :
    min_time_passes (CephScrubLogAnalyzer.init none SCRUB_RATE_EST false).min_time 5 = true ∧
    ExplanShape.osdOp ≠ ExplanShape.unrecognized ∧
    parse_line (CephScrubLogAnalyzer.init none SCRUB_RATE_EST false)
        (Line.osdLog 3 5 "WRN" (Rest.slowRest 1 0 ⟨"x", ExplanShape.osdOp⟩) "r")
      = .ok { CephScrubLogAnalyzer.init none SCRUB_RATE_EST false with
          log := (CephScrubLogAnalyzer.init none SCRUB_RATE_EST false).log.add
            (Event.OSDSlowRequestEvent 5 3 "x") } :=
  ⟨by decide, by decide,
    slow_request_event_uses_line_timestamp
      (CephScrubLogAnalyzer.init none SCRUB_RATE_EST false) 3 5 "WRN" "r" "x" 1 0
      ExplanShape.osdOp (by decide) (by decide)⟩

/-- C3 counterexample: a shallow scrub-completion line for a placement group
that is not registered is accepted (counters bump, no error), refuting the
claim that any scrub-completion line (shallow or deep) with an unregistered
pg id aborts the run. -/
theorem shallow_scrub_unregistered_pg_not_fatal :
    dictGet "1.2" (CephScrubLogAnalyzer.init none SCRUB_RATE_EST false).pg = none ∧
    parse_line (CephScrubLogAnalyzer.init none SCRUB_RATE_EST false)
        (Line.osdLog 1 10 "INF" (Rest.scrubRest "1.2" "scrub") "r")
      = .ok { CephScrubLogAnalyzer.init none SCRUB_RATE_EST false with
          shallow_count := 1, scrub_count := 1 } :=
  ⟨by decide, by decide⟩

/-- C3 amended: only a deep scrub-completion line with an unregistered pg id
aborts the run (an uncaught `KeyError`, with `deep_count` already bumped),
and the Event Log of the state at the abort is unchanged — no event is
recorded for the line; a shallow completion never consults the registry and
always succeeds. -/
theorem deep_scrub_unregistered_pg_fatal (a : Analyzer) (pgid : String) (n : ℕ)
    (t : Time) (sev raw : String)
    (hpg : dictGet pgid a.pg = none)
    (hp : min_time_passes a.min_time t = true) :
    parse_line a (Line.osdLog n t sev (Rest.scrubRest pgid "deep-scrub") raw)
      = .error (.keyError, { a with deep_count := a.deep_count + 1 }) ∧
    ({ a with deep_count := a.deep_count + 1 } : Analyzer).log = a.log ∧
    parse_line a (Line.osdLog n t sev (Rest.scrubRest pgid "scrub") raw)
      = .ok { a with shallow_count := a.shallow_count + 1,
                     scrub_count := a.scrub_count + 1 } := by
  refine ⟨?_, rfl, ?_⟩
  · have hd := parse_osd_log_scrub_line_deep_missing a pgid t hpg
    simp [parse_line, parse_osd_log_line, hp, hd]
  · have hd := parse_osd_log_scrub_line_shallow a pgid t
    simp [parse_line, parse_osd_log_line, hp, hd]

theorem deep_scrub_unregistered_pg_fatal_witness :
    dictGet "1.9" (CephScrubLogAnalyzer.init none SCRUB_RATE_EST false).pg = none ∧
    min_time_passes (CephScrubLogAnalyzer.init none SCRUB_RATE_EST false).min_time 10 = true ∧
    (parse_line (CephScrubLogAnalyzer.init none SCRUB_RATE_EST false)
        (Line.osdLog 1 10 "INF" (Rest.scrubRest "1.9" "deep-scrub") "r")
      = .error (.keyError, { CephScrubLogAnalyzer.init none SCRUB_RATE_EST false with
          deep_count := 1 }) ∧
      ({ CephScrubLogAnalyzer.init none SCRUB_RATE_EST false with
          deep_count := 1 } : Analyzer).log
        = (CephScrubLogAnalyzer.init none SCRUB_RATE_EST false).log ∧
      parse_line (CephScrubLogAnalyzer.init none SCRUB_RATE_EST false)
        (Line.osdLog 1 10 "INF" (Rest.scrubRest "1.9" "scrub") "r")
      = .ok { CephScrubLogAnalyzer.init none SCRUB_RATE_EST false with
          shallow_count := 1, scrub_count := 1 }) :=
  ⟨by decide, by decide,
    by
      have h := deep_scrub_unregistered_pg_fatal
        (CephScrubLogAnalyzer.init none SCRUB_RATE_EST false) "1.9" 1 10 "INF" "r"
        (by decide) (by decide)
      simpa using h⟩

/-- C4 counterexample: a topology osd line processed before any host line is
accepted with no `ParseError`: the node id is silently bound to the `None`
sentinel, refuting the claim that the resolver fails. -/
theorem tree_osd_before_host_not_parse_error :
    (CephScrubLogAnalyzer.init none SCRUB_RATE_EST false).current_host = none ∧
    parse_line (CephScrubLogAnalyzer.init none SCRUB_RATE_EST false) (Line.treeOsd 5)
      = .ok { CephScrubLogAnalyzer.init none SCRUB_RATE_EST false with
          osd_to_host := [(5, none)] } :=
  ⟨by decide, by decide⟩

/-- C4 amended: a topology osd line appearing while the current-host cursor
still holds the `None` sentinel does not raise: it binds the node id to that
sentinel value in the topology mapping. -/
theorem tree_osd_binds_current_host_sentinel (a : Analyzer) (n : ℕ)
    (h : a.current_host = none) :
    parse_line a (Line.treeOsd n)
      = .ok { a with osd_to_host := dictSet a.osd_to_host n none } := by
  simp [parse_line, parse_osd_tree_osd, h]

theorem tree_osd_binds_current_host_sentinel_witness :
    (CephScrubLogAnalyzer.init none SCRUB_RATE_EST false).current_host = none ∧
    parse_line (CephScrubLogAnalyzer.init none SCRUB_RATE_EST false) (Line.treeOsd 5)
      = .ok { CephScrubLogAnalyzer.init none SCRUB_RATE_EST false with
          osd_to_host := dictSet
            (CephScrubLogAnalyzer.init none SCRUB_RATE_EST false).osd_to_host 5 none } :=
  ⟨by decide,
    tree_osd_binds_current_host_sentinel
      (CephScrubLogAnalyzer.init none SCRUB_RATE_EST false) 5 (by decide)⟩

/-- C5 counterexample: with the threshold configured at 10, a log line whose
timestamp is exactly 10 is not strictly before the threshold, yet its
remainder is not classified (the state is returned unchanged, the scrub
counter in particular is not bumped), refuting the claimed iff. -/
theorem line_at_min_time_not_classified :
    (CephScrubLogAnalyzer.init (some 10) SCRUB_RATE_EST false).min_time = some 10 ∧
    ¬ ((10 : ℚ) < 10) ∧
    parse_line (CephScrubLogAnalyzer.init (some 10) SCRUB_RATE_EST false)
        (Line.osdLog 1 10 "INF" (Rest.scrubRest "1.2" "scrub") "r")
      = .ok (CephScrubLogAnalyzer.init (some 10) SCRUB_RATE_EST false) :=
  ⟨by decide, by decide, by decide⟩

/-- C5 amended: every structurally matched per-node log line is consumed
regardless of its timestamp, and its remainder is classified if and only if
no threshold is configured or the threshold is strictly less than the line's
timestamp (a line at exactly the threshold is filtered); the filter is a
pure filter (a filtered line changes nothing) and is never applied to
PG-dump, topology, or node-stats lines, whose processing is independent of
the configured bound. -/
theorem min_time_filter_boundary (a : Analyzer) (n : ℕ) (t : Time) (sev raw : String)
    (rest : Rest) :
    (min_time_passes a.min_time t = false →
      parse_line a (Line.osdLog n t sev rest raw) = .ok a) ∧
    (∀ m, a.min_time = some m → (min_time_passes a.min_time t = true ↔ m < t)) ∧
    (a.min_time = none → min_time_passes a.min_time t = true) ∧
    (∀ pgid, min_time_passes a.min_time t = true →
      parse_line a (Line.osdLog n t sev (Rest.scrubRest pgid "scrub") raw)
        = .ok { a with shallow_count := a.shallow_count + 1,
                       scrub_count := a.scrub_count + 1 }) ∧
    (∀ m pgid objects bytes status up_set up_primary acting_set acting_primary,
      parse_line (with_min a m)
          (Line.pgLine pgid objects bytes status up_set up_primary acting_set acting_primary)
        = except_with_min m (parse_line a
            (Line.pgLine pgid objects bytes status up_set up_primary acting_set
              acting_primary))) ∧
    (∀ m host, parse_line (with_min a m) (Line.treeHost host)
      = except_with_min m (parse_line a (Line.treeHost host))) ∧
    (∀ m osdno, parse_line (with_min a m) (Line.treeOsd osdno)
      = except_with_min m (parse_line a (Line.treeOsd osdno))) ∧
    (∀ m osdno kb, parse_line (with_min a m) (Line.stats osdno kb)
      = except_with_min m (parse_line a (Line.stats osdno kb))) := by
  refine ⟨?_, ?_, ?_, ?_, ?_, ?_, ?_, ?_⟩
  · intro hf
    simp [parse_line, parse_osd_log_line, hf]
  · intro m hm
    simp [min_time_passes, hm]
  · intro hm
    simp [min_time_passes, hm]
  · intro pgid hp
    have hd := parse_osd_log_scrub_line_shallow a pgid t
    simp [parse_line, parse_osd_log_line, hp, hd]
  · intro m pgid objects bytes status up_set up_primary acting_set acting_primary
    simp only [parse_line]
    exact parse_pg_with_min a m pgid objects bytes up_set up_primary acting_set
      acting_primary
  · intro m host
    rfl
  · intro m osdno
    rfl
  · intro m osdno kb
    rfl

theorem min_time_filter_boundary_witness :
    (min_time_passes (some 10) 5 = false →
      parse_line (CephScrubLogAnalyzer.init (some 10) SCRUB_RATE_EST false)
          (Line.osdLog 1 5 "INF" (Rest.unknownRest "z") "r")
        = .ok (CephScrubLogAnalyzer.init (some 10) SCRUB_RATE_EST false)) ∧
    (min_time_passes (some 10) 5 = false) ∧
    (parse_line (CephScrubLogAnalyzer.init none SCRUB_RATE_EST false)
        (Line.osdLog 1 5 "INF" (Rest.scrubRest "1.2" "scrub") "r")
      = .ok { CephScrubLogAnalyzer.init none SCRUB_RATE_EST false with
          shallow_count := 1, scrub_count := 1 }) ∧
    (parse_line (with_min (CephScrubLogAnalyzer.init none SCRUB_RATE_EST false) (some 7))
        (Line.treeOsd 4)
      = except_with_min (some 7)
          (parse_line (CephScrubLogAnalyzer.init none SCRUB_RATE_EST false)
            (Line.treeOsd 4))) :=
  ⟨(min_time_filter_boundary (CephScrubLogAnalyzer.init (some 10) SCRUB_RATE_EST false)
      1 5 "INF" "r" (Rest.unknownRest "z")).1,
    by decide,
    (min_time_filter_boundary (CephScrubLogAnalyzer.init none SCRUB_RATE_EST false)
      1 5 "INF" "r" (Rest.scrubRest "1.2" "scrub")).2.2.2.1 "1.2" (by decide),
    (min_time_filter_boundary (CephScrubLogAnalyzer.init none SCRUB_RATE_EST false)
      1 5 "INF" "r" (Rest.scrubRest "1.2" "scrub")).2.2.2.2.2.2.1 (some 7) 4⟩

/-- C7: a successfully parsed PG-dump line registers a `PG` whose `up` and
`acting` sets head-match the parsed primaries, whose host list has one entry
per acting-set member, each the topology resolution of the corresponding
node id; a line violating either primary check aborts with an assertion
failure, an acting member absent from the topology aborts with the lookup's
`KeyError`, and any abort leaves the registry unchanged. -/
theorem parse_pg_validates_and_registers (a : Analyzer) (pgid : String)
    (objects bytes : ℕ) (status : String) (up_set : List ℕ) (up_primary : ℕ)
    (acting_set : List ℕ) (acting_primary : ℕ) :
    (∀ a₁, parse_line a
        (Line.pgLine pgid objects bytes status up_set up_primary acting_set acting_primary)
          = .ok a₁ →
      ∃ pg : PG, dictGet pgid a₁.pg = some pg ∧
        pg.up.head? = some up_primary ∧ pg.acting.head? = some acting_primary ∧
        pg.up = up_set ∧ pg.acting = acting_set ∧
        pg.hosts.length = pg.acting.length ∧
        (∀ (i : ℕ) (hi : i < pg.acting.length) (hh : i < pg.hosts.length),
          dictGet (pg.acting.get ⟨i, hi⟩) a.osd_to_host = some (pg.hosts.get ⟨i, hh⟩))) ∧
    (∀ e a₁, parse_line a
        (Line.pgLine pgid objects bytes status up_set up_primary acting_set acting_primary)
          = .error (e, a₁) → a₁.pg = a.pg) ∧
    (∀ u0, up_set.head? = some u0 → u0 ≠ up_primary →
      parse_line a
        (Line.pgLine pgid objects bytes status up_set up_primary acting_set acting_primary)
          = .error (.assertionError, a)) ∧
    (up_set.head? = some up_primary →
      ∀ a0, acting_set.head? = some a0 → a0 ≠ acting_primary →
      parse_line a
        (Line.pgLine pgid objects bytes status up_set up_primary acting_set acting_primary)
          = .error (.assertionError, a)) ∧
    (up_set.head? = some up_primary → acting_set.head? = some acting_primary →
      ∀ e, resolve_hosts a acting_set = .error e →
      parse_line a
        (Line.pgLine pgid objects bytes status up_set up_primary acting_set acting_primary)
          = .error (e, a)) := by
  refine ⟨?_, ?_, ?_, ?_, ?_⟩
  · intro a₁ h
    simp only [parse_line] at h
    obtain ⟨hosts, hres, hup, hact, heq⟩ := parse_pg_ok_shape h
    subst heq
    obtain ⟨hlen, hidx⟩ := resolve_hosts_ok hres
    refine ⟨PG.mk pgid objects bytes up_set acting_set hosts, ?_, hup, hact, rfl, rfl,
      hlen, hidx⟩
    exact dictGet_dictSet_self a.pg pgid _
  · intro e a₁ h
    simp only [parse_line] at h
    have := parse_pg_error_state h
    rw [this]
  · intro u0 hu0 hne
    simp only [parse_line]
    unfold parse_pg
    rw [hu0]
    simp [hne]
  · intro hup a0 ha0 hne
    simp only [parse_line]
    unfold parse_pg
    rw [hup, ha0]
    simp [hne]
  · intro hup hact e hres
    simp only [parse_line]
    unfold parse_pg
    rw [hup, hact, hres]
    simp

theorem parse_pg_validates_and_registers_witness :
    (parse_line c7_a (Line.pgLine "1.2" 5 999 "act" [1] 1 [1] 1) = .ok c7_ok) ∧
    (∃ pg : PG, dictGet "1.2" c7_ok.pg = some pg ∧
      pg.up.head? = some 1 ∧ pg.acting.head? = some 1 ∧
      pg.up = [1] ∧ pg.acting = [1] ∧
      pg.hosts.length = pg.acting.length ∧
      (∀ (i : ℕ) (hi : i < pg.acting.length) (hh : i < pg.hosts.length),
        dictGet (pg.acting.get ⟨i, hi⟩) c7_a.osd_to_host = some (pg.hosts.get ⟨i, hh⟩))) ∧
    (parse_line c7_a (Line.pgLine "1.3" 5 999 "act" [2] 1 [1] 1)
      = .error (.assertionError, c7_a)) :=
  ⟨by decide,
    (parse_pg_validates_and_registers c7_a "1.2" 5 999 "act" [1] 1 [1] 1).1 c7_ok
      (by decide),
    (parse_pg_validates_and_registers c7_a "1.3" 5 999 "act" [2] 1 [1] 1).2.2.1 2
      (by decide) (by decide)⟩

/-- C8: a per-node log line whose remainder matches none of the four known
sub-grammars raises a fatal `ParseError` (naming the whole raw line) exactly
when the line passes the minimum-timestamp filter, and is silently consumed
otherwise; a top-level line matching none of the top-level grammars never
raises — it is echoed with the `?? ` prefix when the configuration flag is
set and silently dropped otherwise. -/
theorem unrecognized_line_handling (a : Analyzer) (n : ℕ) (t : Time)
    (sev raw txt : String) :
    (min_time_passes a.min_time t = true →
      parse_line a (Line.osdLog n t sev (Rest.unknownRest txt) raw)
        = .error (.parseError ("Unrecognized OSD log line: " ++ raw), a)) ∧
    (min_time_passes a.min_time t = false →
      parse_line a (Line.osdLog n t sev (Rest.unknownRest txt) raw) = .ok a) ∧
    (a.log_unknown_lines = true →
      parse_line a (Line.unknown raw)
        = .ok { a with output := a.output ++ ["?? " ++ raw] }) ∧
    (a.log_unknown_lines = false →
      parse_line a (Line.unknown raw) = .ok a) := by
  refine ⟨?_, ?_, ?_, ?_⟩
  · intro hp
    simp [parse_line, parse_osd_log_line, hp]
  · intro hp
    simp [parse_line, parse_osd_log_line, hp]
  · intro hf
    simp [parse_line, hf]
  · intro hf
    simp [parse_line, hf]

theorem unrecognized_line_handling_witness :
    (parse_line (CephScrubLogAnalyzer.init none SCRUB_RATE_EST false)
        (Line.osdLog 1 10 "INF" (Rest.unknownRest "weird") "whole line")
      = .error (.parseError ("Unrecognized OSD log line: " ++ "whole line"),
          CephScrubLogAnalyzer.init none SCRUB_RATE_EST false)) ∧
    (parse_line (CephScrubLogAnalyzer.init (some 10) SCRUB_RATE_EST false)
        (Line.osdLog 1 5 "INF" (Rest.unknownRest "weird") "whole line")
      = .ok (CephScrubLogAnalyzer.init (some 10) SCRUB_RATE_EST false)) ∧
    (parse_line (CephScrubLogAnalyzer.init none SCRUB_RATE_EST true)
        (Line.unknown "junk")
      = .ok { CephScrubLogAnalyzer.init none SCRUB_RATE_EST true with
          output := (CephScrubLogAnalyzer.init none SCRUB_RATE_EST true).output
            ++ ["?? " ++ "junk"] }) ∧
    (parse_line (CephScrubLogAnalyzer.init none SCRUB_RATE_EST false)
        (Line.unknown "junk")
      = .ok (CephScrubLogAnalyzer.init none SCRUB_RATE_EST false)) :=
  ⟨(unrecognized_line_handling (CephScrubLogAnalyzer.init none SCRUB_RATE_EST false)
      1 10 "INF" "whole line" "weird").1 (by decide),
    (unrecognized_line_handling (CephScrubLogAnalyzer.init (some 10) SCRUB_RATE_EST false)
      1 5 "INF" "whole line" "weird").2.1 (by decide),
    (unrecognized_line_handling (CephScrubLogAnalyzer.init none SCRUB_RATE_EST true)
      1 10 "INF" "junk" "x").2.2.1 (by decide),
    (unrecognized_line_handling (CephScrubLogAnalyzer.init none SCRUB_RATE_EST false)
      1 10 "INF" "junk" "x").2.2.2 (by decide)⟩

end AnalyzeScrublogs
